import Mathlib

/-!
Shallow embedding, in Lean 4, of the capture rule-engine and of the network
move-handling code of the Krojanty game (files `src/capture.c` and `src/net.c`
of the repository), together with theorems settling the specification claims
about them.

Conventions of the embedding:
* C machine integers that hold board coordinates, indices or socket handles
  are modelled as `Int` (all values involved are far from any overflow
  boundary, and the C code performs no wrap-around arithmetic on them).
* The global game state (`pieces`, `piece_count`, `cell_control`,
  `selected_piece`, `game_over`, the scores) is gathered into a structure
  `GState` that every embedded function takes and returns explicitly;
  `piece_count` is represented by the length of the `pieces` list, and a
  removal `for (k = idx; k < piece_count - 1; ++k) pieces[k] = pieces[k+1];
  --piece_count;` is represented by `List.eraseIdx`.
* The GTK call `set_victory_message(blue_won, reason)` is modelled by
  appending the pair `(blue_won, reason)` to a `messages` log kept in the
  state, so that victory signalling is observable.
* `printf` logging and widget redraws have no game-state effect and are not
  modelled.
-/

/-- A piece of the game, mirroring `Piece` of `app.h`: a board position,
a color character (`'B'` or `'R'`) and a kind character (`'K'` or `'P'`). -/
structure Piece where
  row : Int
  col : Int
  color : Char
  type : Char
deriving DecidableEq, Repr

/-- Default piece used to give `List.getD` a value; the embedded code only
dereferences indices that the source guarantees to be in range. -/
def defaultPiece : Piece := ⟨0, 0, ' ', ' '⟩

/-- The global game state of the C program, gathered into one structure. -/
structure GState where
  pieces : List Piece
  cell_control : List (List Int)
  game_over : Bool
  selected_piece : Int
  score_blue : Int
  score_red : Int
  messages : List (Bool × String)
deriving DecidableEq, Repr

/-- Array read `pieces[n]` (with a default out of range). -/
def pieceAt (ps : List Piece) (n : Nat) : Piece := ps.getD n defaultPiece

/-- Read `cell_control[r][c]`; out-of-range reads return 0 (the C code never
performs them: every access is behind an inclusive `0..8` bounds check). -/
def getCell (g : List (List Int)) (r c : Int) : Int :=
  if 0 ≤ r ∧ r < 9 ∧ 0 ≤ c ∧ c < 9 then (g.getD r.toNat []).getD c.toNat 0 else 0

/-- Write `cell_control[r][c] = v`; out-of-range writes are no-ops (the C code
never performs them: every write is behind an inclusive `0..8` bounds check). -/
def setCell (g : List (List Int)) (r c : Int) (v : Int) : List (List Int) :=
  if 0 ≤ r ∧ r < 9 ∧ 0 ≤ c ∧ c < 9 then
    g.set r.toNat ((g.getD r.toNat []).set c.toNat v)
  else g

/-- The all-neutral 9×9 control grid. -/
def grid0 : List (List Int) := List.replicate 9 (List.replicate 9 0)

/-- Helper for `find_piece_at`: scan the piece list, carrying the index of the
head of the remaining list. -/
def findPieceAtAux : List Piece → Int → Int → Int → Int
  | [], _, _, _ => -1
  | p :: rest, row, col, i =>
    if p.row = row ∧ p.col = col then i else findPieceAtAux rest row col (i + 1)

/-- Modelled from the spec: `find_piece_at` is defined in `game.c`, which is
not among the provided sources (only its callers in `capture.c` and `net.c`
and its header use are). Per the spec ("locate the piece at the origin cell —
absence is an invalid-move condition") and the unit tests
(`find_piece_at(4,5) == -1` after a capture), it returns the index of the
first live piece at `(row, col)`, or `-1` when the cell is empty. -/
def find_piece_at (ps : List Piece) (row col : Int) : Int :=
  findPieceAtAux ps row col 0

/-- Pieces of color `'B'` whose kind is not `'K'`, as tallied by the loop of
`check_auto_defeat` (`blue_count`). -/
def tally_blue_pawns (ps : List Piece) : Nat :=
  (ps.filter (fun p => p.color == 'B' && p.type != 'K')).length

/-- Blue kings, as tallied by `check_auto_defeat` (`blue_king`). -/
def tally_blue_kings (ps : List Piece) : Nat :=
  (ps.filter (fun p => p.color == 'B' && p.type == 'K')).length

/-- Pieces whose color is not `'B'` and whose kind is not `'K'`, as tallied by
the `else` branch of the loop of `check_auto_defeat` (`red_count`). -/
def tally_red_pawns (ps : List Piece) : Nat :=
  (ps.filter (fun p => p.color != 'B' && p.type != 'K')).length

/-- Kings of non-blue color, as tallied by `check_auto_defeat` (`red_king`). -/
def tally_red_kings (ps : List Piece) : Nat :=
  (ps.filter (fun p => p.color != 'B' && p.type == 'K')).length

/-- Embedding of `check_auto_defeat` (capture.c, lines 150-171): tally pawns
and kings of each side; if the game is not over and blue has exactly one pawn
and one king, red is declared winner and the game ends; then the same check,
guarded by the (possibly just-set) game-over flag, for red. -/
def check_auto_defeat (st : GState) : GState :=
  let st1 :=
    if ¬st.game_over ∧ tally_blue_pawns st.pieces = 1 ∧ tally_blue_kings st.pieces = 1 then
      { st with
        messages := st.messages ++ [(false, "Les bleus n\x27ont plus qu\x27un pion et un roi.")],
        game_over := true }
    else st
  if ¬st1.game_over ∧ tally_red_pawns st1.pieces = 1 ∧ tally_red_kings st1.pieces = 1 then
    { st1 with
      messages := st1.messages ++ [(true, "Les rouges n\x27ont plus qu\x27un pion et un roi.")],
      game_over := true }
  else st1

/-- Number of cells of the control grid holding value `v`. -/
def countControl (g : List (List Int)) (v : Int) : Nat :=
  (g.map (fun row => (row.filter (fun x => x == v)).length)).foldr (· + ·) 0

/-- Modelled from the spec: `update_scores` is defined in `game.c`, which is
not among the provided sources (only its call site in `capture.c` is). Per the
spec ("score-per-color (cells controlled + surviving soldiers)" in §3, and the
`app.h` comment "+1 par case contrôlée, +1 par soldat en vie"), it recomputes
each side's score as its controlled cells plus its living soldiers; it touches
only the score fields of the state. -/
def update_scores (st : GState) : GState :=
  { st with
    score_blue := (countControl st.cell_control 1 : Int) + (tally_blue_pawns st.pieces : Int),
    score_red := (countControl st.cell_control 2 : Int) + (tally_red_pawns st.pieces : Int) }

/-- Terminal state built by the king-capture branches of both capture
functions: emit `set_victory_message(!blue_king_captured, ...)`, remove the
piece at `idx`, and set the game-over flag. -/
def kingCaptureState (st : GState) (idx : Nat) : GState :=
  let cap := pieceAt st.pieces idx
  { st with
    messages := st.messages ++
      [(cap.color != 'B',
        if cap.color = 'B' then "Le roi bleu a été capturé." else "Le roi rouge a été capturé.")],
    pieces := st.pieces.eraseIdx idx,
    game_over := true }

/-- Unit move step of the Seltou direction derivation (capture.c, lines
106-107): `if (r != old_row) dr = (r > old_row) ? 1 : -1;` with `dr`
initialized to 0. -/
def seltouStep (x old : Int) : Int :=
  if x ≠ old then (if x > old then 1 else -1) else 0

/-- Embedding of `check_seltou_capture` (capture.c, lines 97-141). The moved
piece's destination is its current position `(r, c)`; `(old_row, old_col)` is
its origin. A diagonal or null move vector is a no-op; otherwise the unit step
`(dr, dc)` of the move is derived, the cell one step beyond the destination is
probed for an enemy piece, the cell one further step for a protecting piece of
the enemy's color; a king capture ends the game, a pawn capture clears the
cell's control, compacts the piece array, updates the scores and re-checks
auto-defeat. -/
def check_seltou_capture (st : GState) (moved_index : Nat) (old_row old_col : Int) : GState :=
  let moved := pieceAt st.pieces moved_index
  let ally := moved.color
  let enemy := if ally = 'B' then 'R' else 'B'
  let r := moved.row
  let c := moved.col
  if r ≠ old_row ∧ c ≠ old_col then st
  else if r = old_row ∧ c = old_col then st
  else
    let dr : Int := seltouStep r old_row
    let dc : Int := seltouStep c old_col
    let enemy_row := r + dr
    let enemy_col := c + dc
    if enemy_row < 0 ∨ enemy_row > 8 ∨ enemy_col < 0 ∨ enemy_col > 8 then st
    else
      let idx_enemy := find_piece_at st.pieces enemy_row enemy_col
      if idx_enemy < 0 ∨ (pieceAt st.pieces idx_enemy.toNat).color ≠ enemy then st
      else
        let back_row := enemy_row + dr
        let back_col := enemy_col + dc
        if (0 ≤ back_row ∧ back_row < 9 ∧ 0 ≤ back_col ∧ back_col < 9) ∧
            0 ≤ find_piece_at st.pieces back_row back_col ∧
            (pieceAt st.pieces (find_piece_at st.pieces back_row back_col).toNat).color = enemy then
          st
        else if (pieceAt st.pieces idx_enemy.toNat).type = 'K' then
          kingCaptureState st idx_enemy.toNat
        else
          let st1 :=
            { st with
              cell_control := setCell st.cell_control enemy_row enemy_col 0,
              pieces := st.pieces.eraseIdx idx_enemy.toNat,
              selected_piece :=
                if st.selected_piece > idx_enemy then st.selected_piece - 1
                else st.selected_piece }
          check_auto_defeat (update_scores st1)

example :
    (check_seltou_capture
      { pieces := [⟨4, 4, 'B', 'P'⟩, ⟨5, 4, 'R', 'P'⟩],
        cell_control := grid0, game_over := false, selected_piece := -1,
        score_blue := 0, score_red := 0, messages := [] }
      0 3 4).pieces.length = 1 := by decide

example :
    (check_seltou_capture
      { pieces := [⟨0, 0, 'B', 'P'⟩, ⟨-1, 0, 'R', 'P'⟩],
        cell_control := grid0, game_over := false, selected_piece := -1,
        score_blue := 0, score_red := 0, messages := [] }
      0 0 0).pieces.length = 2 := by decide

/-- Row offsets of the four scan directions of `check_linca_capture`
(`int dr[4] = {-1, 1, 0, 0};`). -/
def dirDr : Nat → Int
  | 0 => -1
  | 1 => 1
  | _ => 0

/-- Column offsets of the four scan directions of `check_linca_capture`
(`int dc[4] = { 0, 0,-1, 1};`). -/
def dirDc : Nat → Int
  | 0 => 0
  | 1 => 0
  | 2 => -1
  | _ => 1

/-- One direction probe of the Linca scan: for direction `d`, check the
distance-2 bounds, then look for an enemy piece on the adjacent cell and an
allied piece on the cell beyond it. On success, return the index of the enemy
piece and its cell. -/
def lincaProbe (st : GState) (r c : Int) (ally enemy : Char) (d : Nat) :
    Option (Nat × Int × Int) :=
  let r1 := r + dirDr d
  let c1 := c + dirDc d
  let r2 := r + 2 * dirDr d
  let c2 := c + 2 * dirDc d
  if r2 < 0 ∨ r2 > 8 ∨ c2 < 0 ∨ c2 > 8 then none
  else
    let idx1 := find_piece_at st.pieces r1 c1
    let idx2 := find_piece_at st.pieces r2 c2
    if 0 ≤ idx1 ∧ (pieceAt st.pieces idx1.toNat).color = enemy ∧
        0 ≤ idx2 ∧ (pieceAt st.pieces idx2.toNat).color = ally then
      some (idx1.toNat, r1, c1)
    else none

/-- First direction (in the order 0, 1, 2, 3) whose Linca probe triggers.
Because the C loop resets `d = -1` after every capture, the scan it performs
is exactly: repeatedly find the first triggering direction starting from 0. -/
def lincaFirst (st : GState) (r c : Int) (ally enemy : Char) : Option (Nat × Int × Int) :=
  match lincaProbe st r c ally enemy 0 with
  | some x => some x
  | none =>
    match lincaProbe st r c ally enemy 1 with
    | some x => some x
    | none =>
      match lincaProbe st r c ally enemy 2 with
      | some x => some x
      | none => lincaProbe st r c ally enemy 3

/-- Pawn-capture mutation of the Linca scan: clear the captured cell's control
(behind the same inclusive bounds check as the C code), compact the piece
array, and slide `selected_piece` down if it sat beyond the removed index. -/
def lincaPawnCapture (st : GState) (idx1 : Nat) (r1 c1 : Int) : GState :=
  { st with
    cell_control :=
      if 0 ≤ r1 ∧ r1 < 9 ∧ 0 ≤ c1 ∧ c1 < 9 then setCell st.cell_control r1 c1 0
      else st.cell_control,
    pieces := st.pieces.eraseIdx idx1,
    selected_piece :=
      if st.selected_piece > (idx1 : Int) then st.selected_piece - 1 else st.selected_piece }

/-- The Linca scan loop: find the first triggering direction; a captured king
ends the game at once (no further direction is scanned), a captured pawn is
removed and the scan restarts from direction 0 on the new state. The fuel
argument only bounds the number of captures; `check_linca_capture` passes
`piece_count + 1`, which the loop can never exhaust since every round removes
a piece. -/
def lincaLoop (r c : Int) (ally enemy : Char) : Nat → GState → GState
  | 0, st => st
  | Nat.succ fuel, st =>
    match lincaFirst st r c ally enemy with
    | none => st
    | some (idx1, r1, c1) =>
      if (pieceAt st.pieces idx1).type = 'K' then kingCaptureState st idx1
      else lincaLoop r c ally enemy fuel (lincaPawnCapture st idx1 r1 c1)

/-- Embedding of `check_linca_capture` (capture.c, lines 38-82): read the
moved piece's position and color once, then run the direction scan with
restart-after-capture. -/
def check_linca_capture (st : GState) (moved_index : Nat) : GState :=
  let moved := pieceAt st.pieces moved_index
  let ally := moved.color
  let enemy := if ally = 'B' then 'R' else 'B'
  lincaLoop moved.row moved.col ally enemy (st.pieces.length + 1) st

example :
    (check_linca_capture
      { pieces := [⟨4, 4, 'B', 'P'⟩, ⟨4, 5, 'R', 'P'⟩, ⟨4, 6, 'B', 'P'⟩],
        cell_control := grid0, game_over := false, selected_piece := -1,
        score_blue := 0, score_red := 0, messages := [] }
      0).pieces.length = 2 := by decide

example :
    (check_linca_capture
      { pieces := [⟨2, 4, 'B', 'P'⟩, ⟨2, 5, 'R', 'P'⟩, ⟨2, 6, 'B', 'P'⟩,
                   ⟨2, 3, 'R', 'P'⟩, ⟨2, 2, 'B', 'P'⟩],
        cell_control := grid0, game_over := false, selected_piece := -1,
        score_blue := 0, score_red := 0, messages := [] }
      0).pieces.length = 3 := by decide

/-- Network-facing state: the game state together with the globals of `net.c`
(`current_turn` and `turn_number` live in `game.c`; only `current_turn` is
read by the move callback) — `my_color` and `g_socket`
(`INVALID_SOCKET` is modelled as `-1`). -/
structure NetSt where
  g : GState
  current_turn : Char
  my_color : Char
  g_socket : Int
deriving DecidableEq, Repr

/-- Column decoding of a token character: `toupper(ch) - 'A'` (net.c, line
212). -/
def decodeCol (ch : Char) : Int := (ch.toUpper.toNat : Int) - 65

/-- Row decoding of a token character: `N - (ch - '0')` with `N = 9` (net.c,
line 213). -/
def decodeRow (ch : Char) : Int := 9 - ((ch.toNat : Int) - 48)

/-- The `invalid_move:` label of `gui_move_piece_callback` (net.c, lines
239-255): mark the game over, award the victory to the local color, and tear
the socket down (shutdown + close + invalidate) when it is still valid. -/
def invalidMoveTeardown (st : NetSt) : NetSt :=
  { st with
    g := { st.g with
      game_over := true,
      messages := st.g.messages ++ [(st.my_color == 'B', "L\x27adversaire a joué un coup invalide.")] },
    g_socket := if st.g_socket ≠ -1 then -1 else st.g_socket }

/-- Embedding of `gui_move_piece_callback` (net.c, lines 203-256). The
functions `can_move` and `move_piece` live in `game.c`, which is not among the
provided sources; the callback is therefore parametrized by them (`can_move`
is the legality checker run on the decoded move, `move_piece` applies a legal
move — per the spec, "run the same Legality Checker used for local moves" and
"apply the move and invoke the Capture Rule-Engine exactly as a local move
would"). A message whose length differs from 4 is dropped without decoding;
otherwise the token is decoded with `decodeCol` and `decodeRow` and the three
validity checks run in order. -/
def gui_move_piece_callback
    (can_move : NetSt → Nat → Int → Int → Bool)
    (move_piece : NetSt → Nat → Int → Int → NetSt)
    (st : NetSt) (msg : List Char) : NetSt :=
  if msg.length ≠ 4 then st
  else
    let from_col : Int := decodeCol (msg.getD 0 ' ')
    let from_row : Int := decodeRow (msg.getD 1 ' ')
    let to_col : Int := decodeCol (msg.getD 2 ' ')
    let to_row : Int := decodeRow (msg.getD 3 ' ')
    let piece_idx := find_piece_at st.g.pieces from_row from_col
    if piece_idx < 0 then invalidMoveTeardown st
    else if (pieceAt st.g.pieces piece_idx.toNat).color ≠ st.current_turn then
      invalidMoveTeardown st
    else if ¬can_move st piece_idx.toNat to_row to_col then invalidMoveTeardown st
    else move_piece st piece_idx.toNat to_row to_col

/-- The transmission loop of `TCP_Send_Message` (net.c, lines 184-193),
parametrized by the stream of return values of the successive `send` calls
(the real `send` blocks, so the stream running dry cannot happen under the
hypotheses of the theorems; it is mapped to the error result). Returns the C
function's return value together with the number of `send` calls made. -/
def sendLoop : List Int → Int → Int × Nat
  | [], total => if total < 4 then (-1, 0) else (total, 0)
  | rr :: rest, total =>
    if total < 4 then
      if rr ≤ 0 then (-1, 1)
      else
        let p := sendLoop rest (total + rr)
        (p.1, p.2 + 1)
    else (total, 0)

/-- Embedding of `TCP_Send_Message` (net.c, lines 171-194): a `NULL` move
(modelled as `none`) or a move whose length is not 4 is rejected with `-1`
before any `send`; otherwise the 4 bytes are flushed by the send loop.
Returns the result value and the number of `send` calls made. -/
def TCP_Send_Message (move : Option (List Char)) (sends : List Int) : Int × Nat :=
  match move with
  | none => (-1, 0)
  | some m => if m.length ≠ 4 then (-1, 0) else sendLoop sends 0

example : TCP_Send_Message (some ['A', 'B', 'C']) [4] = (-1, 0) := by decide

example : TCP_Send_Message (some ['A', '1', 'A', '2']) [2, 1, 1] = (4, 3) := by decide

/-! ### Infrastructure lemmas: list getters, setters, erasure, piece lookup -/

theorem getD_set_cases {α : Type} (l : List α) (i j : Nat) (v d : α) :
    (l.set i v).getD j d = if i = j ∧ i < l.length then v else l.getD j d := by
  induction l generalizing i j with
  | nil => simp
  | cons a t ih =>
    cases i with
    | zero =>
      cases j with
      | zero => simp
      | succ m => simp
    | succ n =>
      cases j with
      | zero => simp
      | succ m =>
        have hiff : (n + 1 = m + 1 ∧ n + 1 < t.length + 1) ↔ (n = m ∧ n < t.length) := by omega
        simp only [List.set_cons_succ, List.getD_cons_succ, List.length_cons]
        rw [ih n m, if_congr hiff rfl rfl]

theorem getD_of_len_le {α : Type} (l : List α) (n : Nat) (d : α) (h : l.length ≤ n) :
    l.getD n d = d :=
  List.getD_eq_default l d h

/-- Writing value 0 to a cell makes reading that cell yield 0, whether or not
the write was inside the represented grid (out-of-range reads return the
neutral value 0 by convention). -/
theorem getCell_setCell_self_zero (g : List (List Int)) (r c : Int) :
    getCell (setCell g r c 0) r c = 0 := by
  unfold getCell setCell
  split_ifs with hb
  · rw [getD_set_cases]
    by_cases hr : r.toNat < g.length
    · rw [if_pos (⟨rfl, hr⟩ : r.toNat = r.toNat ∧ r.toNat < g.length), getD_set_cases]
      by_cases hc : c.toNat < (g.getD r.toNat []).length
      · rw [if_pos (⟨rfl, hc⟩ : c.toNat = c.toNat ∧ c.toNat < (g.getD r.toNat []).length)]
      · rw [if_neg (by omega)]
        exact getD_of_len_le _ _ _ (by omega)
    · rw [if_neg (by omega)]
      rw [getD_of_len_le g _ [] (by omega)]
      simp
  · rfl

/-- A write to cell `(r, c)` leaves every other cell's read unchanged. -/
theorem getCell_setCell_ne (g : List (List Int)) (r c a b v : Int)
    (h : a ≠ r ∨ b ≠ c) : getCell (setCell g r c v) a b = getCell g a b := by
  unfold getCell setCell
  by_cases hb : 0 ≤ r ∧ r < 9 ∧ 0 ≤ c ∧ c < 9
  · rw [if_pos hb]
    by_cases ha : 0 ≤ a ∧ a < 9 ∧ 0 ≤ b ∧ b < 9
    · rw [if_pos ha, if_pos ha]
      rw [getD_set_cases]
      by_cases hrow : r.toNat = a.toNat ∧ r.toNat < g.length
      · have hra : r = a := by omega
        have hbc : b ≠ c := by
          rcases h with h | h
          · exact absurd hra.symm h
          · exact h
        rw [if_pos hrow, getD_set_cases]
        have hnc : ¬(c.toNat = b.toNat ∧ c.toNat < (g.getD r.toNat []).length) := by
          intro hcb
          omega
        rw [if_neg hnc, hra]
      · rw [if_neg hrow]
    · rw [if_neg ha, if_neg ha]
  · rw [if_neg hb]

theorem pieceAt_cons_zero (p : Piece) (ps : List Piece) : pieceAt (p :: ps) 0 = p := rfl

theorem pieceAt_cons_succ (p : Piece) (ps : List Piece) (n : Nat) :
    pieceAt (p :: ps) (n + 1) = pieceAt ps n := rfl

theorem pieceAt_mem (ps : List Piece) (n : Nat) (h : n < ps.length) : pieceAt ps n ∈ ps := by
  induction ps generalizing n with
  | nil => simp at h
  | cons p t ih =>
    cases n with
    | zero => exact List.mem_cons_self p t
    | succ m =>
      exact List.mem_cons_of_mem p (ih m (by simpa [Nat.succ_lt_succ_iff] using h))

theorem findPieceAtAux_cases (ps : List Piece) (row col : Int) (i : Int) :
    (findPieceAtAux ps row col i = -1 ∧ ∀ p ∈ ps, ¬(p.row = row ∧ p.col = col)) ∨
    (∃ j : Nat, j < ps.length ∧ findPieceAtAux ps row col i = i + j ∧
      (pieceAt ps j).row = row ∧ (pieceAt ps j).col = col) := by
  induction ps generalizing i with
  | nil => left; exact ⟨rfl, by simp⟩
  | cons p rest ih =>
    by_cases hp : p.row = row ∧ p.col = col
    · right
      refine ⟨0, by simp, ?_, by simpa [pieceAt_cons_zero] using hp.1,
        by simpa [pieceAt_cons_zero] using hp.2⟩
      simp [findPieceAtAux, hp]
    · rcases ih (i + 1) with ⟨h1, h2⟩ | ⟨j, hj, heq, hr, hc⟩
      · left
        constructor
        · simpa [findPieceAtAux, hp] using h1
        · intro q hq
          rcases List.mem_cons.mp hq with rfl | hq'
          · exact hp
          · exact h2 q hq'
      · right
        refine ⟨j + 1, by simpa [Nat.succ_lt_succ_iff] using hj, ?_,
          by simpa [pieceAt_cons_succ] using hr, by simpa [pieceAt_cons_succ] using hc⟩
        have : findPieceAtAux (p :: rest) row col i = findPieceAtAux rest row col (i + 1) := by
          simp [findPieceAtAux, hp]
        rw [this, heq]
        push_cast
        ring

theorem find_piece_at_neg {ps : List Piece} {row col : Int}
    (h : find_piece_at ps row col < 0) : ∀ p ∈ ps, ¬(p.row = row ∧ p.col = col) := by
  rcases findPieceAtAux_cases ps row col 0 with ⟨_, h2⟩ | ⟨j, _, heq, _, _⟩
  · exact h2
  · exfalso
    have : find_piece_at ps row col = (j : Int) := by simpa [find_piece_at] using heq
    omega

theorem find_piece_at_found {ps : List Piece} {row col : Int}
    (h : 0 ≤ find_piece_at ps row col) :
    (find_piece_at ps row col).toNat < ps.length ∧
    (pieceAt ps (find_piece_at ps row col).toNat).row = row ∧
    (pieceAt ps (find_piece_at ps row col).toNat).col = col := by
  rcases findPieceAtAux_cases ps row col 0 with ⟨h1, _⟩ | ⟨j, hj, heq, hr, hc⟩
  · exfalso
    have : find_piece_at ps row col = -1 := h1
    omega
  · have heq' : find_piece_at ps row col = (j : Int) := by simpa [find_piece_at] using heq
    have : (find_piece_at ps row col).toNat = j := by omega
    rw [this]
    exact ⟨hj, hr, hc⟩

theorem find_piece_at_of_mem {ps : List Piece} {p : Piece} {row col : Int}
    (hp : p ∈ ps) (hr : p.row = row) (hc : p.col = col) :
    0 ≤ find_piece_at ps row col := by
  by_contra h
  exact find_piece_at_neg (by omega) p hp ⟨hr, hc⟩

/-- Well-formedness of a position: no two live pieces occupy the same cell. -/
def distinctPos (ps : List Piece) : Prop :=
  ps.Pairwise (fun p q => p.row ≠ q.row ∨ p.col ≠ q.col)

instance (ps : List Piece) : Decidable (distinctPos ps) := by
  unfold distinctPos
  infer_instance

theorem distinctPos_eq_of_same_cell {ps : List Piece} {p q : Piece}
    (hd : distinctPos ps) (hp : p ∈ ps) (hq : q ∈ ps)
    (hrow : p.row = q.row) (hcol : p.col = q.col) : p = q := by
  by_contra hne
  have hsymm : Symmetric (fun p q : Piece => p.row ≠ q.row ∨ p.col ≠ q.col) := by
    intro a b hab
    exact hab.imp Ne.symm Ne.symm
  rcases List.Pairwise.forall hsymm hd hp hq hne with h | h
  · exact h hrow
  · exact h hcol

theorem distinctPos_nodup {ps : List Piece} (hd : distinctPos ps) : ps.Nodup :=
  hd.imp (fun {a b} h => by
    intro heq
    subst heq
    rcases h with h | h <;> exact h rfl)

theorem find_piece_at_unique {ps : List Piece} {p : Piece} {row col : Int}
    (hd : distinctPos ps) (hp : p ∈ ps) (hr : p.row = row) (hc : p.col = col) :
    0 ≤ find_piece_at ps row col ∧
    pieceAt ps (find_piece_at ps row col).toNat = p := by
  have h0 := find_piece_at_of_mem hp hr hc
  obtain ⟨hlt, hr', hc'⟩ := find_piece_at_found h0
  refine ⟨h0, ?_⟩
  exact distinctPos_eq_of_same_cell hd (pieceAt_mem _ _ hlt) hp (by rw [hr', hr]) (by rw [hc', hc])

theorem mem_eraseIdx_of_ne {l : List Piece} {q : Piece} {i : Nat}
    (hq : q ∈ l) (hne : pieceAt l i ≠ q) : q ∈ l.eraseIdx i := by
  induction l generalizing i with
  | nil => simp at hq
  | cons a t ih =>
    cases i with
    | zero =>
      rcases List.mem_cons.mp hq with rfl | hq'
      · exact absurd rfl hne
      · simpa using hq'
    | succ n =>
      rcases List.mem_cons.mp hq with rfl | hq'
      · simp
      · simpa using Or.inr (ih hq' (by simpa [pieceAt_cons_succ] using hne))

theorem not_mem_eraseIdx_self {l : List Piece} {i : Nat}
    (hl : l.Nodup) (h : i < l.length) : pieceAt l i ∉ l.eraseIdx i := by
  induction l generalizing i with
  | nil => simp at h
  | cons a t ih =>
    cases i with
    | zero =>
      simpa [pieceAt_cons_zero] using (List.nodup_cons.mp hl).1
    | succ n =>
      have hn : n < t.length := by simpa [Nat.succ_lt_succ_iff] using h
      intro hmem
      rcases List.mem_cons.mp hmem with heq | hmem'
      · exact (List.nodup_cons.mp hl).1 (heq ▸ pieceAt_mem t n hn)
      · exact ih (List.nodup_cons.mp hl).2 hn hmem'

/-- Number of kings (of either color) among the live pieces. -/
def kingTally (ps : List Piece) : Nat := (ps.filter (fun p => p.type == 'K')).length

theorem kingTally_eraseIdx_pawn {l : List Piece} {i : Nat}
    (h : i < l.length) (hp : (pieceAt l i).type ≠ 'K') :
    kingTally (l.eraseIdx i) = kingTally l := by
  induction l generalizing i with
  | nil => simp at h
  | cons a t ih =>
    cases i with
    | zero =>
      have : (a.type == 'K') = false := by
        simpa [pieceAt_cons_zero] using hp
      simp [kingTally, List.filter_cons, this]
    | succ n =>
      have hn : n < t.length := by simpa [Nat.succ_lt_succ_iff] using h
      have := ih hn (by simpa [pieceAt_cons_succ] using hp)
      simp only [List.eraseIdx_cons_succ, kingTally, List.filter_cons]
      by_cases ha : (a.type == 'K') = true
      · simpa [ha, kingTally] using this
      · simpa [ha, kingTally] using this

/-! ### Lemmas on the Linca direction probe and scan -/

theorem ally_ne_enemy (ally : Char) : ally ≠ (if ally = 'B' then 'R' else 'B') := by
  by_cases h : ally = 'B'
  · subst h
    decide
  · simp only [h, if_false]
    exact h

theorem dir_unit (d : Nat) (hd : d < 4) :
    (dirDr d = 0 ∧ (dirDc d = 1 ∨ dirDc d = -1)) ∨
    (dirDc d = 0 ∧ (dirDr d = 1 ∨ dirDr d = -1)) := by
  interval_cases d <;> simp [dirDr, dirDc]

theorem dist1_ne_dist2 (d d' : Nat) (hd : d < 4) (hd' : d' < 4) (r c : Int) :
    ¬(r + dirDr d' = r + 2 * dirDr d ∧ c + dirDc d' = c + 2 * dirDc d) := by
  intro h
  obtain ⟨h1, h2⟩ := h
  interval_cases d <;> interval_cases d' <;> simp [dirDr, dirDc] at h1 h2 <;> omega

theorem dist1_inj (d d' : Nat) (hd : d < 4) (hd' : d' < 4) (r c : Int)
    (h1 : r + dirDr d' = r + dirDr d) (h2 : c + dirDc d' = c + dirDc d) : d' = d := by
  interval_cases d <;> interval_cases d' <;> simp [dirDr, dirDc] at h1 h2 <;> omega

theorem lincaProbe_some {st : GState} {r c : Int} {ally enemy : Char} {d : Nat}
    {idx : Nat} {r1 c1 : Int}
    (h : lincaProbe st r c ally enemy d = some (idx, r1, c1)) :
    r1 = r + dirDr d ∧ c1 = c + dirDc d ∧
    ¬(r + 2 * dirDr d < 0 ∨ r + 2 * dirDr d > 8 ∨ c + 2 * dirDc d < 0 ∨ c + 2 * dirDc d > 8) ∧
    0 ≤ find_piece_at st.pieces r1 c1 ∧
    idx = (find_piece_at st.pieces r1 c1).toNat ∧
    (pieceAt st.pieces idx).color = enemy ∧
    0 ≤ find_piece_at st.pieces (r + 2 * dirDr d) (c + 2 * dirDc d) ∧
    (pieceAt st.pieces (find_piece_at st.pieces (r + 2 * dirDr d) (c + 2 * dirDc d)).toNat).color
      = ally := by
  simp only [lincaProbe] at h
  split_ifs at h with h1 h2
  obtain ⟨hi, hr, hc⟩ : (find_piece_at st.pieces (r + dirDr d) (c + dirDc d)).toNat = idx ∧
      r + dirDr d = r1 ∧ c + dirDc d = c1 := by
    simpa using h
  subst hi
  subst hr
  subst hc
  exact ⟨rfl, rfl, h1, h2.1, rfl, h2.2.1, h2.2.2.1, h2.2.2.2⟩

/-- The properties of the enemy piece found by a successful probe: it is a
live piece sitting on the adjacent cell of the probed direction, and its color
is the enemy color. -/
theorem lincaProbe_piece {st : GState} {r c : Int} {ally enemy : Char} {d : Nat}
    {idx : Nat} {r1 c1 : Int}
    (h : lincaProbe st r c ally enemy d = some (idx, r1, c1)) :
    idx < st.pieces.length ∧ (pieceAt st.pieces idx).row = r1 ∧
    (pieceAt st.pieces idx).col = c1 ∧ (pieceAt st.pieces idx).color = enemy := by
  obtain ⟨hr1, hc1, _, hfind, hidx, hcol, _, _⟩ := lincaProbe_some h
  have hfound := find_piece_at_found hfind
  subst hidx
  refine ⟨hfound.1, ?_, ?_, hcol⟩
  · rw [hfound.2.1]
  · rw [hfound.2.2]

theorem lincaProbe_fires {st : GState} {r c : Int} {ally enemy : Char} {d : Nat}
    (hd : distinctPos st.pieces) {p1 p2 : Piece}
    (hp1 : p1 ∈ st.pieces) (h1r : p1.row = r + dirDr d) (h1c : p1.col = c + dirDc d)
    (h1col : p1.color = enemy)
    (hp2 : p2 ∈ st.pieces) (h2r : p2.row = r + 2 * dirDr d) (h2c : p2.col = c + 2 * dirDc d)
    (h2col : p2.color = ally)
    (hb : ¬(r + 2 * dirDr d < 0 ∨ r + 2 * dirDr d > 8 ∨ c + 2 * dirDc d < 0 ∨ c + 2 * dirDc d > 8)) :
    lincaProbe st r c ally enemy d =
      some ((find_piece_at st.pieces (r + dirDr d) (c + dirDc d)).toNat,
        r + dirDr d, c + dirDc d) := by
  obtain ⟨hf1, hu1⟩ := find_piece_at_unique hd hp1 h1r h1c
  obtain ⟨hf2, hu2⟩ := find_piece_at_unique hd hp2 h2r h2c
  simp only [lincaProbe]
  rw [if_neg hb, if_pos ⟨hf1, by rw [hu1]; exact h1col, hf2, by rw [hu2]; exact h2col⟩]

theorem lincaFirst_none {st : GState} {r c : Int} {ally enemy : Char}
    (h : lincaFirst st r c ally enemy = none) :
    ∀ d, d < 4 → lincaProbe st r c ally enemy d = none := by
  intro d hd
  unfold lincaFirst at h
  cases h0 : lincaProbe st r c ally enemy 0 with
  | some x => rw [h0] at h; exact absurd h (by simp)
  | none =>
    rw [h0] at h
    cases h1 : lincaProbe st r c ally enemy 1 with
    | some x => rw [h1] at h; exact absurd h (by simp)
    | none =>
      rw [h1] at h
      cases h2 : lincaProbe st r c ally enemy 2 with
      | some x => rw [h2] at h; exact absurd h (by simp)
      | none =>
        rw [h2] at h
        interval_cases d
        · exact h0
        · exact h1
        · exact h2
        · exact h

theorem lincaFirst_some {st : GState} {r c : Int} {ally enemy : Char}
    {x : Nat × Int × Int} (h : lincaFirst st r c ally enemy = some x) :
    ∃ d, d < 4 ∧ lincaProbe st r c ally enemy d = some x := by
  unfold lincaFirst at h
  cases h0 : lincaProbe st r c ally enemy 0 with
  | some y => rw [h0] at h; exact ⟨0, by omega, by rw [h0, ← h]⟩
  | none =>
    rw [h0] at h
    cases h1 : lincaProbe st r c ally enemy 1 with
    | some y => rw [h1] at h; exact ⟨1, by omega, by rw [h1, ← h]⟩
    | none =>
      rw [h1] at h
      cases h2 : lincaProbe st r c ally enemy 2 with
      | some y => rw [h2] at h; exact ⟨2, by omega, by rw [h2, ← h]⟩
      | none =>
        rw [h2] at h
        exact ⟨3, by omega, h⟩

theorem lincaLoop_succ_none {r c : Int} {ally enemy : Char} {n : Nat} {st : GState}
    (hf : lincaFirst st r c ally enemy = none) :
    lincaLoop r c ally enemy (n + 1) st = st := by
  simp only [lincaLoop]
  rw [hf]

theorem lincaLoop_succ_king {r c : Int} {ally enemy : Char} {n : Nat} {st : GState}
    {idx : Nat} {r1 c1 : Int}
    (hf : lincaFirst st r c ally enemy = some (idx, r1, c1))
    (hk : (pieceAt st.pieces idx).type = 'K') :
    lincaLoop r c ally enemy (n + 1) st = kingCaptureState st idx := by
  simp only [lincaLoop]
  rw [hf]
  simp [hk]

theorem lincaLoop_succ_pawn {r c : Int} {ally enemy : Char} {n : Nat} {st : GState}
    {idx : Nat} {r1 c1 : Int}
    (hf : lincaFirst st r c ally enemy = some (idx, r1, c1))
    (hk : ¬(pieceAt st.pieces idx).type = 'K') :
    lincaLoop r c ally enemy (n + 1) st =
      lincaLoop r c ally enemy n (lincaPawnCapture st idx r1 c1) := by
  simp only [lincaLoop]
  rw [hf]
  simp [hk]

/-- The piece list only ever shrinks (by compaction) along the Linca scan. -/
theorem lincaLoop_sublist (r c : Int) (ally enemy : Char) :
    ∀ (fuel : Nat) (st : GState),
      List.Sublist (lincaLoop r c ally enemy fuel st).pieces st.pieces := by
  intro fuel
  induction fuel with
  | zero => intro st; exact List.Sublist.refl _
  | succ n ih =>
    intro st
    cases hf : lincaFirst st r c ally enemy with
    | none => rw [lincaLoop_succ_none hf]
    | some x =>
      obtain ⟨idx, r1, c1⟩ := x
      by_cases hk : (pieceAt st.pieces idx).type = 'K'
      · rw [lincaLoop_succ_king hf hk]
        exact List.eraseIdx_sublist _ _
      · rw [lincaLoop_succ_pawn hf hk]
        exact (ih _).trans (List.eraseIdx_sublist st.pieces idx)

/-- Once a control cell reads 0, the rest of the Linca scan keeps it at 0 (the
scan never writes any value other than 0). -/
theorem lincaLoop_keeps_zero (r c : Int) (ally enemy : Char) (a b : Int) :
    ∀ (fuel : Nat) (st : GState), getCell st.cell_control a b = 0 →
      getCell (lincaLoop r c ally enemy fuel st).cell_control a b = 0 := by
  intro fuel
  induction fuel with
  | zero => intro st h; exact h
  | succ n ih =>
    intro st h
    cases hf : lincaFirst st r c ally enemy with
    | none => rw [lincaLoop_succ_none hf]; exact h
    | some x =>
      obtain ⟨idx, r1, c1⟩ := x
      by_cases hk : (pieceAt st.pieces idx).type = 'K'
      · rw [lincaLoop_succ_king hf hk]
        exact h
      · rw [lincaLoop_succ_pawn hf hk]
        apply ih
        show getCell (if 0 ≤ r1 ∧ r1 < 9 ∧ 0 ≤ c1 ∧ c1 < 9 then setCell st.cell_control r1 c1 0
          else st.cell_control) a b = 0
        split_ifs with hb
        · by_cases hab : a = r1 ∧ b = c1
          · rw [hab.1, hab.2]
            exact getCell_setCell_self_zero _ _ _
          · rw [getCell_setCell_ne _ _ _ _ _ _ (by tauto)]
            exact h
        · exact h

theorem lincaPawnCapture_pieces (st : GState) (idx : Nat) (r1 c1 : Int) :
    (lincaPawnCapture st idx r1 c1).pieces = st.pieces.eraseIdx idx := rfl

theorem lincaPawnCapture_control (st : GState) (idx : Nat) (r1 c1 : Int) :
    (lincaPawnCapture st idx r1 c1).cell_control =
      if 0 ≤ r1 ∧ r1 < 9 ∧ 0 ≤ c1 ∧ c1 < 9 then setCell st.cell_control r1 c1 0
      else st.cell_control := rfl

theorem lincaPawnCapture_messages (st : GState) (idx : Nat) (r1 c1 : Int) :
    (lincaPawnCapture st idx r1 c1).messages = st.messages := rfl

theorem lincaPawnCapture_game_over (st : GState) (idx : Nat) (r1 c1 : Int) :
    (lincaPawnCapture st idx r1 c1).game_over = st.game_over := rfl

theorem kingCaptureState_pieces (st : GState) (idx : Nat) :
    (kingCaptureState st idx).pieces = st.pieces.eraseIdx idx := rfl

theorem kingCaptureState_control (st : GState) (idx : Nat) :
    (kingCaptureState st idx).cell_control = st.cell_control := rfl

theorem kingCaptureState_game_over (st : GState) (idx : Nat) :
    (kingCaptureState st idx).game_over = true := rfl

theorem kingCaptureState_messages (st : GState) (idx : Nat) :
    (kingCaptureState st idx).messages = st.messages ++
      [((pieceAt st.pieces idx).color != 'B',
        if (pieceAt st.pieces idx).color = 'B' then "Le roi bleu a été capturé."
        else "Le roi rouge a été capturé.")] := rfl

/-- Any control cell the Linca scan changes is set to 0, and the change stems
from the capture of an enemy pawn that stood on that very cell. -/
theorem lincaLoop_control_change (r c : Int) (ally enemy : Char) (a b : Int) :
    ∀ (fuel : Nat) (st : GState), distinctPos st.pieces →
      getCell (lincaLoop r c ally enemy fuel st).cell_control a b ≠ getCell st.cell_control a b →
      getCell (lincaLoop r c ally enemy fuel st).cell_control a b = 0 ∧
      ∃ p, p ∈ st.pieces ∧ p ∉ (lincaLoop r c ally enemy fuel st).pieces ∧
        p.row = a ∧ p.col = b ∧ p.type ≠ 'K' ∧ p.color = enemy := by
  intro fuel
  induction fuel with
  | zero => intro st _ hch; exact absurd rfl hch
  | succ n ih =>
    intro st hd hch
    cases hf : lincaFirst st r c ally enemy with
    | none =>
      rw [lincaLoop_succ_none hf] at hch
      exact absurd rfl hch
    | some x =>
      obtain ⟨idx, r1, c1⟩ := x
      obtain ⟨d, hd4, hprobe⟩ := lincaFirst_some hf
      obtain ⟨hlen, hqrow, hqcol, hqcolor⟩ := lincaProbe_piece hprobe
      by_cases hk : (pieceAt st.pieces idx).type = 'K'
      · rw [lincaLoop_succ_king hf hk, kingCaptureState_control] at hch
        exact absurd rfl hch
      · rw [lincaLoop_succ_pawn hf hk] at hch ⊢
        have hsub' : List.Sublist (st.pieces.eraseIdx idx) st.pieces :=
          List.eraseIdx_sublist st.pieces idx
        have hd' : distinctPos (lincaPawnCapture st idx r1 c1).pieces := by
          rw [lincaPawnCapture_pieces]
          exact hd.sublist hsub'
        by_cases hch' : getCell (lincaPawnCapture st idx r1 c1).cell_control a b
            = getCell st.cell_control a b
        · have hch2 : getCell (lincaLoop r c ally enemy n
              (lincaPawnCapture st idx r1 c1)).cell_control a b
              ≠ getCell (lincaPawnCapture st idx r1 c1).cell_control a b := by
            rw [hch']
            exact hch
          obtain ⟨h0, p, hpmem, hpnot, hrr, hcc, ht, hcol⟩ := ih _ hd' hch2
          refine ⟨h0, p, ?_, hpnot, hrr, hcc, ht, hcol⟩
          rw [lincaPawnCapture_pieces] at hpmem
          exact hsub'.mem hpmem
        · have hguard : 0 ≤ r1 ∧ r1 < 9 ∧ 0 ≤ c1 ∧ c1 < 9 := by
            by_contra hg
            apply hch'
            rw [lincaPawnCapture_control, if_neg hg]
          have hab : a = r1 ∧ b = c1 := by
            by_contra hab
            apply hch'
            rw [lincaPawnCapture_control, if_pos hguard,
              getCell_setCell_ne _ _ _ _ _ _ (by tauto)]
          have hz' : getCell (lincaPawnCapture st idx r1 c1).cell_control a b = 0 := by
            rw [lincaPawnCapture_control, if_pos hguard, hab.1, hab.2]
            exact getCell_setCell_self_zero _ _ _
          have h0 := lincaLoop_keeps_zero r c ally enemy a b n _ hz'
          refine ⟨h0, pieceAt st.pieces idx, pieceAt_mem _ _ hlen, ?_,
            by rw [hqrow]; exact hab.1.symm, by rw [hqcol]; exact hab.2.symm, hk, hqcolor⟩
          intro hqin
          have hq' : pieceAt st.pieces idx ∈ (lincaPawnCapture st idx r1 c1).pieces :=
            (lincaLoop_sublist r c ally enemy n _).mem hqin
          rw [lincaPawnCapture_pieces] at hq'
          exact not_mem_eraseIdx_self (distinctPos_nodup hd) hlen hq'

/-- Every pawn the Linca scan captures has its cell's control cleared in the
final state (the clearing happens at capture time and no later step can
overwrite it with a nonzero value). -/
theorem lincaLoop_clears_captured (r c : Int) (ally enemy : Char) :
    ∀ (fuel : Nat) (st : GState), distinctPos st.pieces →
      ∀ p : Piece, p ∈ st.pieces → p ∉ (lincaLoop r c ally enemy fuel st).pieces →
        p.type ≠ 'K' →
        getCell (lincaLoop r c ally enemy fuel st).cell_control p.row p.col = 0 := by
  intro fuel
  induction fuel with
  | zero => intro st _ p hin hout _; exact absurd hin hout
  | succ n ih =>
    intro st hd p hin hout htype
    cases hf : lincaFirst st r c ally enemy with
    | none =>
      rw [lincaLoop_succ_none hf] at hout
      exact absurd hin hout
    | some x =>
      obtain ⟨idx, r1, c1⟩ := x
      obtain ⟨d, hd4, hprobe⟩ := lincaFirst_some hf
      obtain ⟨hlen, hqrow, hqcol, hqcolor⟩ := lincaProbe_piece hprobe
      by_cases hk : (pieceAt st.pieces idx).type = 'K'
      · rw [lincaLoop_succ_king hf hk, kingCaptureState_pieces] at hout
        have hpq : pieceAt st.pieces idx = p := by
          by_contra hne
          exact hout (mem_eraseIdx_of_ne hin hne)
        rw [← hpq] at htype
        exact absurd hk htype
      · rw [lincaLoop_succ_pawn hf hk] at hout ⊢
        have hsub' : List.Sublist (st.pieces.eraseIdx idx) st.pieces :=
          List.eraseIdx_sublist st.pieces idx
        have hd' : distinctPos (lincaPawnCapture st idx r1 c1).pieces := by
          rw [lincaPawnCapture_pieces]
          exact hd.sublist hsub'
        by_cases hpq : pieceAt st.pieces idx = p
        · have hz' : getCell (lincaPawnCapture st idx r1 c1).cell_control p.row p.col = 0 := by
            rw [lincaPawnCapture_control]
            split_ifs with hg
            · rw [← hpq, hqrow, hqcol]
              exact getCell_setCell_self_zero _ _ _
            · rw [← hpq, hqrow, hqcol]
              unfold getCell
              rw [if_neg (by tauto)]
          exact lincaLoop_keeps_zero r c ally enemy p.row p.col n _ hz'
        · have hin' : p ∈ (lincaPawnCapture st idx r1 c1).pieces := by
            rw [lincaPawnCapture_pieces]
            exact mem_eraseIdx_of_ne hin hpq
          exact ih _ hd' p hin' hout htype

/-- If the Linca scan has removed a king, then the captured piece was the
enemy king found by a probe: the scan set the game-over flag and appended
exactly one victory message, declaring the capturing side the winner. -/
theorem lincaLoop_king (r c : Int) (ally enemy : Char) :
    ∀ (fuel : Nat) (st : GState),
      kingTally (lincaLoop r c ally enemy fuel st).pieces < kingTally st.pieces →
      (lincaLoop r c ally enemy fuel st).game_over = true ∧
      (lincaLoop r c ally enemy fuel st).messages = st.messages ++
        [(enemy != 'B',
          if enemy = 'B' then "Le roi bleu a été capturé."
          else "Le roi rouge a été capturé.")] := by
  intro fuel
  induction fuel with
  | zero =>
    intro st h
    simp only [lincaLoop] at h
    exact absurd h (lt_irrefl _)
  | succ n ih =>
    intro st h
    cases hf : lincaFirst st r c ally enemy with
    | none =>
      rw [lincaLoop_succ_none hf] at h
      exact absurd h (by omega)
    | some x =>
      obtain ⟨idx, r1, c1⟩ := x
      obtain ⟨d, hd4, hprobe⟩ := lincaFirst_some hf
      obtain ⟨hlen, hqrow, hqcol, hqcolor⟩ := lincaProbe_piece hprobe
      by_cases hk : (pieceAt st.pieces idx).type = 'K'
      · rw [lincaLoop_succ_king hf hk]
        refine ⟨kingCaptureState_game_over st idx, ?_⟩
        rw [kingCaptureState_messages, hqcolor]
      · rw [lincaLoop_succ_pawn hf hk] at h ⊢
        have htl : kingTally (lincaPawnCapture st idx r1 c1).pieces = kingTally st.pieces := by
          rw [lincaPawnCapture_pieces]
          exact kingTally_eraseIdx_pawn hlen hk
        rw [← htl] at h
        obtain ⟨h1, h2⟩ := ih _ h
        exact ⟨h1, by rw [h2, lincaPawnCapture_messages]⟩

/-- If, when the scan starts, direction `d` holds a sandwich — an enemy piece
adjacent to `(r, c)` and an allied piece right beyond it, within bounds — and
no enemy piece on the board is a king, then after the scan the adjacent cell
of direction `d` is empty and its control is cleared. -/
theorem lincaLoop_sandwich (r c : Int) (ally enemy : Char) (d : Nat) (hd4 : d < 4) :
    ∀ (fuel : Nat) (st : GState), distinctPos st.pieces →
      (∀ p ∈ st.pieces, p.color = enemy → p.type ≠ 'K') →
      st.pieces.length < fuel →
      ∀ p1 p2 : Piece, p1 ∈ st.pieces → p1.row = r + dirDr d → p1.col = c + dirDc d →
        p1.color = enemy →
        p2 ∈ st.pieces → p2.row = r + 2 * dirDr d → p2.col = c + 2 * dirDc d →
        p2.color = ally →
        ¬(r + 2 * dirDr d < 0 ∨ r + 2 * dirDr d > 8 ∨ c + 2 * dirDc d < 0 ∨ c + 2 * dirDc d > 8) →
        (∀ q ∈ (lincaLoop r c ally enemy fuel st).pieces,
          ¬(q.row = r + dirDr d ∧ q.col = c + dirDc d)) ∧
        getCell (lincaLoop r c ally enemy fuel st).cell_control (r + dirDr d) (c + dirDc d)
          = 0 := by
  intro fuel
  induction fuel with
  | zero =>
    intro st _ _ hfuel
    exact absurd hfuel (by omega)
  | succ n ih =>
    intro st hd hkings hfuel p1 p2 hp1 h1r h1c h1col hp2 h2r h2c h2col hb
    cases hf : lincaFirst st r c ally enemy with
    | none =>
      exfalso
      have hfire := lincaProbe_fires hd hp1 h1r h1c h1col hp2 h2r h2c h2col hb
      rw [lincaFirst_none hf d hd4] at hfire
      exact absurd hfire (by simp)
    | some x =>
      obtain ⟨idx, r1', c1'⟩ := x
      obtain ⟨d', hd4', hprobe⟩ := lincaFirst_some hf
      obtain ⟨hr1', hc1', hb', hfind', hidx', hcol', hallyf, hallyc⟩ := lincaProbe_some hprobe
      obtain ⟨hlen, hqrow, hqcol, hqcolor⟩ := lincaProbe_piece hprobe
      have hk : ¬(pieceAt st.pieces idx).type = 'K' :=
        hkings _ (pieceAt_mem _ _ hlen) hqcolor
      rw [lincaLoop_succ_pawn hf hk]
      have hsub' := List.eraseIdx_sublist st.pieces idx
      have hd' : distinctPos (lincaPawnCapture st idx r1' c1').pieces := by
        rw [lincaPawnCapture_pieces]
        exact hd.sublist hsub'
      have hkings' : ∀ p ∈ (lincaPawnCapture st idx r1' c1').pieces,
          p.color = enemy → p.type ≠ 'K' := by
        intro p hp
        rw [lincaPawnCapture_pieces] at hp
        exact hkings p (hsub'.mem hp)
      have hlen' : (lincaPawnCapture st idx r1' c1').pieces.length < n := by
        rw [lincaPawnCapture_pieces]
        have := List.length_eraseIdx_add_one hlen
        omega
      by_cases hqp1 : pieceAt st.pieces idx = p1
      · constructor
        · intro q hqin hqcell
          have hq_st' : q ∈ (lincaPawnCapture st idx r1' c1').pieces :=
            (lincaLoop_sublist r c ally enemy n _).mem hqin
          rw [lincaPawnCapture_pieces] at hq_st'
          have hq_st : q ∈ st.pieces := hsub'.mem hq_st'
          have hqeq : q = p1 :=
            distinctPos_eq_of_same_cell hd hq_st hp1 (by rw [hqcell.1, h1r])
              (by rw [hqcell.2, h1c])
          rw [hqeq, ← hqp1] at hq_st'
          exact not_mem_eraseIdx_self (distinctPos_nodup hd) hlen hq_st'
        · have hcellr : r1' = r + dirDr d := by
            rw [← hqrow, hqp1]
            exact h1r
          have hcellc : c1' = c + dirDc d := by
            rw [← hqcol, hqp1]
            exact h1c
          have hz' : getCell (lincaPawnCapture st idx r1' c1').cell_control
              (r + dirDr d) (c + dirDc d) = 0 := by
            rw [lincaPawnCapture_control]
            split_ifs with hg
            · rw [← hcellr, ← hcellc]
              exact getCell_setCell_self_zero _ _ _
            · rw [← hcellr, ← hcellc]
              unfold getCell
              rw [if_neg (by tauto)]
          exact lincaLoop_keeps_zero r c ally enemy _ _ n _ hz'
      · have hqp2 : pieceAt st.pieces idx ≠ p2 := by
          intro he
          rw [he] at hqrow hqcol
          rw [hr1'] at hqrow
          rw [hc1'] at hqcol
          exact dist1_ne_dist2 d d' hd4 hd4' r c
            ⟨by rw [← hqrow, h2r], by rw [← hqcol, h2c]⟩
        have hp1' : p1 ∈ (lincaPawnCapture st idx r1' c1').pieces := by
          rw [lincaPawnCapture_pieces]
          exact mem_eraseIdx_of_ne hp1 hqp1
        have hp2' : p2 ∈ (lincaPawnCapture st idx r1' c1').pieces := by
          rw [lincaPawnCapture_pieces]
          exact mem_eraseIdx_of_ne hp2 hqp2
        exact ih _ hd' hkings' hlen' p1 p2 hp1' h1r h1c h1col hp2' h2r h2c h2col hb

/-- A run of two consecutive enemy pieces in direction `d` is never captured:
the piece on the distance-2 cell is out of reach of every probe, and its
presence (with enemy color, where the probe demands an ally) vetoes the only
probe that could reach the adjacent piece. -/
theorem lincaLoop_preserves_run (r c : Int) (ally enemy : Char) (hne : ally ≠ enemy)
    (d : Nat) (hd4 : d < 4) :
    ∀ (fuel : Nat) (st : GState), distinctPos st.pieces →
      ∀ p1 p2 : Piece, p1 ∈ st.pieces → p1.row = r + dirDr d → p1.col = c + dirDc d →
        p1.color = enemy →
        p2 ∈ st.pieces → p2.row = r + 2 * dirDr d → p2.col = c + 2 * dirDc d →
        p2.color = enemy →
        p1 ∈ (lincaLoop r c ally enemy fuel st).pieces ∧
        p2 ∈ (lincaLoop r c ally enemy fuel st).pieces := by
  intro fuel
  induction fuel with
  | zero =>
    intro st _ p1 p2 hp1 _ _ _ hp2 _ _ _
    exact ⟨hp1, hp2⟩
  | succ n ih =>
    intro st hd p1 p2 hp1 h1r h1c h1col hp2 h2r h2c h2col
    cases hf : lincaFirst st r c ally enemy with
    | none =>
      rw [lincaLoop_succ_none hf]
      exact ⟨hp1, hp2⟩
    | some x =>
      obtain ⟨idx, r1', c1'⟩ := x
      obtain ⟨d', hd4', hprobe⟩ := lincaFirst_some hf
      obtain ⟨hr1', hc1', hb', hfind', hidx', hcol', hallyf, hallyc⟩ := lincaProbe_some hprobe
      obtain ⟨hlen, hqrow, hqcol, hqcolor⟩ := lincaProbe_piece hprobe
      have hqp2 : pieceAt st.pieces idx ≠ p2 := by
        intro he
        rw [he] at hqrow hqcol
        rw [hr1'] at hqrow
        rw [hc1'] at hqcol
        exact dist1_ne_dist2 d d' hd4 hd4' r c
          ⟨by rw [← hqrow, h2r], by rw [← hqcol, h2c]⟩
      have hqp1 : pieceAt st.pieces idx ≠ p1 := by
        intro he
        rw [he] at hqrow hqcol
        rw [hr1'] at hqrow
        rw [hc1'] at hqcol
        have hdd : d' = d := by
          refine dist1_inj d d' hd4 hd4' r c ?_ ?_
          · rw [← hqrow, h1r]
          · rw [← hqcol, h1c]
        subst hdd
        obtain ⟨_, hu2⟩ := find_piece_at_unique hd hp2 h2r h2c
        rw [hu2, h2col] at hallyc
        exact hne hallyc.symm
      by_cases hk : (pieceAt st.pieces idx).type = 'K'
      · rw [lincaLoop_succ_king hf hk, kingCaptureState_pieces]
        exact ⟨mem_eraseIdx_of_ne hp1 hqp1, mem_eraseIdx_of_ne hp2 hqp2⟩
      · rw [lincaLoop_succ_pawn hf hk]
        have hd' : distinctPos (lincaPawnCapture st idx r1' c1').pieces := by
          rw [lincaPawnCapture_pieces]
          exact hd.sublist (List.eraseIdx_sublist st.pieces idx)
        have hp1' : p1 ∈ (lincaPawnCapture st idx r1' c1').pieces := by
          rw [lincaPawnCapture_pieces]
          exact mem_eraseIdx_of_ne hp1 hqp1
        have hp2' : p2 ∈ (lincaPawnCapture st idx r1' c1').pieces := by
          rw [lincaPawnCapture_pieces]
          exact mem_eraseIdx_of_ne hp2 hqp2
        exact ih _ hd' p1 p2 hp1' h1r h1c h1col hp2' h2r h2c h2col

theorem update_scores_pieces (st : GState) : (update_scores st).pieces = st.pieces := rfl

theorem update_scores_control (st : GState) :
    (update_scores st).cell_control = st.cell_control := rfl

theorem update_scores_game_over (st : GState) :
    (update_scores st).game_over = st.game_over := rfl

theorem update_scores_messages (st : GState) :
    (update_scores st).messages = st.messages := rfl

theorem check_auto_defeat_pieces (st : GState) :
    (check_auto_defeat st).pieces = st.pieces := by
  simp only [check_auto_defeat]
  split_ifs <;> rfl

theorem check_auto_defeat_control (st : GState) :
    (check_auto_defeat st).cell_control = st.cell_control := by
  simp only [check_auto_defeat]
  split_ifs <;> rfl

theorem find_piece_at_empty {ps : List Piece} {row col : Int}
    (h : ∀ p ∈ ps, ¬(p.row = row ∧ p.col = col)) : find_piece_at ps row col = -1 := by
  rcases findPieceAtAux_cases ps row col 0 with ⟨h1, _⟩ | ⟨j, hj, _, hr, hc⟩
  · exact h1
  · exact absurd ⟨hr, hc⟩ (h _ (pieceAt_mem _ _ hj))

/-- Case analysis of one Seltou check: either it is a no-op, or it removes
exactly one enemy-colored piece sitting on an in-bounds cell; a king capture
leaves the control grid alone, sets game-over and emits the victory message,
while a pawn capture writes 0 to the captured piece's cell. -/
theorem seltou_cases (st : GState) (i : Nat) (old_row old_col : Int) :
    check_seltou_capture st i old_row old_col = st ∨
    ∃ k : Nat, k < st.pieces.length ∧
      (pieceAt st.pieces k).color = (if (pieceAt st.pieces i).color = 'B' then 'R' else 'B') ∧
      0 ≤ (pieceAt st.pieces k).row ∧ (pieceAt st.pieces k).row ≤ 8 ∧
      0 ≤ (pieceAt st.pieces k).col ∧ (pieceAt st.pieces k).col ≤ 8 ∧
      (check_seltou_capture st i old_row old_col).pieces = st.pieces.eraseIdx k ∧
      (((pieceAt st.pieces k).type = 'K' ∧
        (check_seltou_capture st i old_row old_col).cell_control = st.cell_control ∧
        (check_seltou_capture st i old_row old_col).game_over = true ∧
        (check_seltou_capture st i old_row old_col).messages = st.messages ++
          [((pieceAt st.pieces k).color != 'B',
            if (pieceAt st.pieces k).color = 'B' then "Le roi bleu a été capturé."
            else "Le roi rouge a été capturé.")]) ∨
       ((pieceAt st.pieces k).type ≠ 'K' ∧
        (check_seltou_capture st i old_row old_col).cell_control =
          setCell st.cell_control (pieceAt st.pieces k).row (pieceAt st.pieces k).col 0)) := by
  simp only [check_seltou_capture]
  set m := pieceAt st.pieces i with hm
  set dr := seltouStep m.row old_row with hdr
  set dc := seltouStep m.col old_col with hdc
  set er := m.row + dr with her
  set ec := m.col + dc with hec
  set fe := find_piece_at st.pieces er ec with hfe
  by_cases h1 : m.row ≠ old_row ∧ m.col ≠ old_col
  · rw [if_pos h1]
    exact Or.inl rfl
  rw [if_neg h1]
  by_cases h2 : m.row = old_row ∧ m.col = old_col
  · rw [if_pos h2]
    exact Or.inl rfl
  rw [if_neg h2]
  by_cases h3 : er < 0 ∨ er > 8 ∨ ec < 0 ∨ ec > 8
  · rw [if_pos h3]
    exact Or.inl rfl
  rw [if_neg h3]
  by_cases h4 : fe < 0 ∨ (pieceAt st.pieces fe.toNat).color ≠ (if m.color = 'B' then 'R' else 'B')
  · rw [if_pos h4]
    exact Or.inl rfl
  rw [if_neg h4]
  push_neg at h3 h4
  obtain ⟨hfk, hfr, hfc⟩ := find_piece_at_found h4.1
  by_cases h5 : (0 ≤ er + dr ∧ er + dr < 9 ∧ 0 ≤ ec + dc ∧ ec + dc < 9) ∧
      0 ≤ find_piece_at st.pieces (er + dr) (ec + dc) ∧
      (pieceAt st.pieces (find_piece_at st.pieces (er + dr) (ec + dc)).toNat).color
        = (if m.color = 'B' then 'R' else 'B')
  · rw [if_pos h5]
    exact Or.inl rfl
  rw [if_neg h5]
  by_cases h6 : (pieceAt st.pieces fe.toNat).type = 'K'
  · rw [if_pos h6]
    right
    refine ⟨fe.toNat, hfk, h4.2, ?_, ?_, ?_, ?_, kingCaptureState_pieces st _,
      Or.inl ⟨h6, kingCaptureState_control st _, kingCaptureState_game_over st _,
        kingCaptureState_messages st _⟩⟩
    · rw [hfr]; exact h3.1
    · rw [hfr]; omega
    · rw [hfc]; exact h3.2.2.1
    · rw [hfc]; omega
  · rw [if_neg h6]
    right
    refine ⟨fe.toNat, hfk, h4.2, ?_, ?_, ?_, ?_, ?_, Or.inr ⟨h6, ?_⟩⟩
    · rw [hfr]; exact h3.1
    · rw [hfr]; omega
    · rw [hfc]; exact h3.2.2.1
    · rw [hfc]; omega
    · rw [check_auto_defeat_pieces, update_scores_pieces]
    · rw [check_auto_defeat_control, update_scores_control, hfr, hfc]

/-! ### Claim theorems -/

/-- C9. Malformed-geometry tolerance of `check_seltou_capture`: a diagonal
move vector, a null move vector, or a derived enemy cell outside the
inclusive bounds 0..8 each make the whole check a no-op — the state (pieces,
piece count, cell control, game-over flag) is returned unchanged, for all
integer inputs including huge or negative coordinates. (Totality on all
integer inputs holds by construction of the embedding, whose every grid
access is behind the same inclusive bounds checks as the C code.) -/
theorem seltou_malformed_geometry_noop (st : GState) (i : Nat) (old_row old_col : Int) :
    ((pieceAt st.pieces i).row ≠ old_row ∧ (pieceAt st.pieces i).col ≠ old_col →
      check_seltou_capture st i old_row old_col = st) ∧
    ((pieceAt st.pieces i).row = old_row ∧ (pieceAt st.pieces i).col = old_col →
      check_seltou_capture st i old_row old_col = st) ∧
    ((pieceAt st.pieces i).row + seltouStep (pieceAt st.pieces i).row old_row < 0 ∨
     (pieceAt st.pieces i).row + seltouStep (pieceAt st.pieces i).row old_row > 8 ∨
     (pieceAt st.pieces i).col + seltouStep (pieceAt st.pieces i).col old_col < 0 ∨
     (pieceAt st.pieces i).col + seltouStep (pieceAt st.pieces i).col old_col > 8 →
      check_seltou_capture st i old_row old_col = st) := by
  refine ⟨?_, ?_, ?_⟩
  · intro h
    simp only [check_seltou_capture]
    rw [if_pos h]
  · intro h
    simp only [check_seltou_capture]
    rw [if_neg (fun hcon => hcon.1 h.1), if_pos h]
  · intro h
    simp only [check_seltou_capture]
    by_cases h1 : (pieceAt st.pieces i).row ≠ old_row ∧ (pieceAt st.pieces i).col ≠ old_col
    · rw [if_pos h1]
    rw [if_neg h1]
    by_cases h2 : (pieceAt st.pieces i).row = old_row ∧ (pieceAt st.pieces i).col = old_col
    · rw [if_pos h2]
    rw [if_neg h2, if_pos h]

/-- Test state for C9: the moved piece carries the huge coordinates of
`test_seltou_out_of_bounds3` while an enemy piece sits off-board. -/
def stC9 : GState :=
  { pieces := [⟨2456000000, 4300000, 'B', 'P'⟩, ⟨-1, 0, 'R', 'P'⟩],
    cell_control := grid0, game_over := false, selected_piece := -1,
    score_blue := 0, score_red := 0, messages := [] }

theorem seltou_malformed_geometry_noop_witness :
    check_seltou_capture stC9 0 0 2456000000 = stC9 ∧
    check_seltou_capture stC9 0 2456000000 4300000 = stC9 :=
  ⟨(seltou_malformed_geometry_noop stC9 0 0 2456000000).1 (by decide),
   (seltou_malformed_geometry_noop stC9 0 2456000000 4300000).2.1 (by decide)⟩

/-- C7. Capture removal is an order-preserving compaction: the surviving
pieces of either capture routine form a sublist of the original piece list
(same relative order, fields untouched), and a Seltou call removes either
nothing or exactly one piece, dropping the piece count by exactly one. -/
theorem capture_removal_is_compaction (st : GState) (i : Nat) (old_row old_col : Int) :
    List.Sublist (check_linca_capture st i).pieces st.pieces ∧
    List.Sublist (check_seltou_capture st i old_row old_col).pieces st.pieces ∧
    ((check_seltou_capture st i old_row old_col).pieces = st.pieces ∨
      ∃ k : Nat, k < st.pieces.length ∧
        (check_seltou_capture st i old_row old_col).pieces = st.pieces.eraseIdx k ∧
        (check_seltou_capture st i old_row old_col).pieces.length + 1 = st.pieces.length) := by
  refine ⟨?_, ?_, ?_⟩
  · simp only [check_linca_capture]
    exact lincaLoop_sublist _ _ _ _ _ st
  · rcases seltou_cases st i old_row old_col with h | ⟨k, hk, _, _, _, _, _, hpieces, _⟩
    · rw [h]
    · rw [hpieces]
      exact List.eraseIdx_sublist _ _
  · rcases seltou_cases st i old_row old_col with h | ⟨k, hk, _, _, _, _, _, hpieces, _⟩
    · exact Or.inl (by rw [h])
    · refine Or.inr ⟨k, hk, hpieces, ?_⟩
      rw [hpieces]
      exact List.length_eraseIdx_add_one hk

/-- C1 (amended). Seltou protection is decided by the color of the flanked
enemy, not by the mover's: under a straight nonzero move with an in-bounds
enemy-colored piece on the cell beyond the destination, (a) a piece of the
enemy's own color directly behind it prevents the capture (the whole call is
a no-op), while (b) a piece of the mover's color directly behind it does not
prevent the capture — the flanked piece is removed all the same. -/
theorem seltou_capture_protected_only_by_enemy_color
    (st : GState) (i : Nat) (old_row old_col er ec br bc : Int)
    (her : er = (pieceAt st.pieces i).row + seltouStep (pieceAt st.pieces i).row old_row)
    (hec : ec = (pieceAt st.pieces i).col + seltouStep (pieceAt st.pieces i).col old_col)
    (hbr : br = er + seltouStep (pieceAt st.pieces i).row old_row)
    (hbc : bc = ec + seltouStep (pieceAt st.pieces i).col old_col)
    (hstraight : ¬((pieceAt st.pieces i).row ≠ old_row ∧ (pieceAt st.pieces i).col ≠ old_col))
    (hmove : ¬((pieceAt st.pieces i).row = old_row ∧ (pieceAt st.pieces i).col = old_col))
    (hbound : ¬(er < 0 ∨ er > 8 ∨ ec < 0 ∨ ec > 8))
    (hen : 0 ≤ find_piece_at st.pieces er ec)
    (hencol : (pieceAt st.pieces (find_piece_at st.pieces er ec).toNat).color
      = (if (pieceAt st.pieces i).color = 'B' then 'R' else 'B')) :
    ((0 ≤ br ∧ br < 9 ∧ 0 ≤ bc ∧ bc < 9) → 0 ≤ find_piece_at st.pieces br bc →
      (pieceAt st.pieces (find_piece_at st.pieces br bc).toNat).color
        = (if (pieceAt st.pieces i).color = 'B' then 'R' else 'B') →
      check_seltou_capture st i old_row old_col = st) ∧
    ((pieceAt st.pieces (find_piece_at st.pieces br bc).toNat).color
        = (pieceAt st.pieces i).color →
      (check_seltou_capture st i old_row old_col).pieces
        = st.pieces.eraseIdx (find_piece_at st.pieces er ec).toNat) := by
  subst her
  subst hec
  subst hbr
  subst hbc
  constructor
  · intro hb4 hfb hcb
    simp only [check_seltou_capture]
    rw [if_neg hstraight, if_neg hmove, if_neg hbound,
      if_neg (show ¬(find_piece_at st.pieces _ _ < 0 ∨ _) by push_neg; exact ⟨hen, hencol⟩),
      if_pos ⟨hb4, hfb, hcb⟩]
  · intro hally
    simp only [check_seltou_capture]
    rw [if_neg hstraight, if_neg hmove, if_neg hbound,
      if_neg (show ¬(find_piece_at st.pieces _ _ < 0 ∨ _) by push_neg; exact ⟨hen, hencol⟩),
      if_neg (show ¬(_ ∧ _) from fun hcon =>
        ally_ne_enemy (pieceAt st.pieces i).color (hally.symm.trans hcon.2.2))]
    by_cases hk : (pieceAt st.pieces
        (find_piece_at st.pieces
          ((pieceAt st.pieces i).row + seltouStep (pieceAt st.pieces i).row old_row)
          ((pieceAt st.pieces i).col + seltouStep (pieceAt st.pieces i).col old_col)).toNat).type
        = 'K'
    · rw [if_pos hk, kingCaptureState_pieces]
    · rw [if_neg hk, check_auto_defeat_pieces, update_scores_pieces]

/-- State refuting C1 as written: Blue just moved from (3,4) to (4,4), a Red
pawn stands at (5,4), and a BLUE pawn (the moving player's color) stands at
(6,4), directly behind the flanked Red pawn. -/
def stC1 : GState :=
  { pieces := [⟨4, 4, 'B', 'P'⟩, ⟨5, 4, 'R', 'P'⟩, ⟨6, 4, 'B', 'P'⟩],
    cell_control := grid0, game_over := false, selected_piece := -1,
    score_blue := 0, score_red := 0, messages := [] }

/-- Same position with the protecting piece of the enemy's color instead. -/
def stC1p : GState :=
  { pieces := [⟨4, 4, 'B', 'P'⟩, ⟨5, 4, 'R', 'P'⟩, ⟨6, 4, 'R', 'P'⟩],
    cell_control := grid0, game_over := false, selected_piece := -1,
    score_blue := 0, score_red := 0, messages := [] }

/-- C1 counterexample: in `stC1` the cell one step beyond the flanked enemy,
(6,4), IS occupied by an allied piece of the moving player's color, yet
`check_seltou_capture` captures the Red pawn anyway — the claim's "only if the
cell beyond is not occupied by a piece of the moving player's color" is false
on the code (the code tests the flanked piece's color instead). -/
theorem seltou_mover_color_behind_still_captures_cex :
    (pieceAt stC1.pieces 2).row = 6 ∧ (pieceAt stC1.pieces 2).col = 4 ∧
    (pieceAt stC1.pieces 2).color = (pieceAt stC1.pieces 0).color ∧
    (check_seltou_capture stC1 0 3 4).pieces = [⟨4, 4, 'B', 'P'⟩, ⟨6, 4, 'B', 'P'⟩] := by
  decide

theorem seltou_capture_protected_only_by_enemy_color_witness :
    check_seltou_capture stC1p 0 3 4 = stC1p ∧
    (check_seltou_capture stC1 0 3 4).pieces = stC1.pieces.eraseIdx 1 :=
  ⟨(seltou_capture_protected_only_by_enemy_color stC1p 0 3 4 5 4 6 4 (by decide) (by decide)
      (by decide) (by decide) (by decide) (by decide) (by decide) (by decide) (by decide)).1
      (by decide) (by decide) (by decide),
   (seltou_capture_protected_only_by_enemy_color stC1 0 3 4 5 4 6 4 (by decide) (by decide)
      (by decide) (by decide) (by decide) (by decide) (by decide) (by decide) (by decide)).2
      (by decide)⟩

/-- State refuting C2 as written: Blue just moved from (3,4) to (4,4) and the
unprotected Red KING at (5,4) stands on a cell controlled by Red (value 2). -/
def stC2 : GState :=
  { pieces := [⟨4, 4, 'B', 'P'⟩, ⟨5, 4, 'R', 'K'⟩],
    cell_control := setCell grid0 5 4 2, game_over := false, selected_piece := -1,
    score_blue := 0, score_red := 0, messages := [] }

/-- C2 counterexample: the Seltou king capture removes the king (the piece
count drops and the match ends) but does NOT clear the captured king's cell
control, which still reads 2 — contradicting the claim that every capture,
"whether the captured piece is a Soldier or a King", clears the cell. (The
Linca king branch behaves the same way.) -/
theorem king_capture_leaves_cell_control_cex :
    (check_seltou_capture stC2 0 3 4).pieces = [⟨4, 4, 'B', 'P'⟩] ∧
    (check_seltou_capture stC2 0 3 4).game_over = true ∧
    getCell stC2.cell_control 5 4 = 2 ∧
    getCell (check_seltou_capture stC2 0 3 4).cell_control 5 4 = 2 := by
  decide

/-- C2 (amended). Cell-control invariant of the capture routines: a cell's
control changes only by being cleared to 0, and only because the pawn that
occupied it was captured; every captured pawn's cell is cleared; a captured
KING's cell control is left untouched (the king branches return before
clearing); no other cell's control is modified. -/
theorem cell_control_cleared_exactly_on_pawn_capture :
    (∀ (st : GState) (i : Nat) (a b : Int), distinctPos st.pieces →
      getCell (check_linca_capture st i).cell_control a b ≠ getCell st.cell_control a b →
      getCell (check_linca_capture st i).cell_control a b = 0 ∧
      ∃ p : Piece, p ∈ st.pieces ∧ p ∉ (check_linca_capture st i).pieces ∧
        p.row = a ∧ p.col = b ∧ p.type ≠ 'K') ∧
    (∀ (st : GState) (i : Nat), distinctPos st.pieces →
      ∀ p : Piece, p ∈ st.pieces → p ∉ (check_linca_capture st i).pieces → p.type ≠ 'K' →
        getCell (check_linca_capture st i).cell_control p.row p.col = 0) ∧
    (∀ (st : GState) (i : Nat) (old_row old_col a b : Int), distinctPos st.pieces →
      getCell (check_seltou_capture st i old_row old_col).cell_control a b
        ≠ getCell st.cell_control a b →
      getCell (check_seltou_capture st i old_row old_col).cell_control a b = 0 ∧
      ∃ p : Piece, p ∈ st.pieces ∧ p ∉ (check_seltou_capture st i old_row old_col).pieces ∧
        p.row = a ∧ p.col = b ∧ p.type ≠ 'K') ∧
    (∀ (st : GState) (i : Nat) (old_row old_col : Int) (p : Piece),
      p ∈ st.pieces → p ∉ (check_seltou_capture st i old_row old_col).pieces → p.type ≠ 'K' →
      getCell (check_seltou_capture st i old_row old_col).cell_control p.row p.col = 0) ∧
    (∀ (st : GState) (i : Nat) (old_row old_col : Int) (p : Piece),
      p ∈ st.pieces → p ∉ (check_seltou_capture st i old_row old_col).pieces → p.type = 'K' →
      (check_seltou_capture st i old_row old_col).cell_control = st.cell_control) := by
  refine ⟨?_, ?_, ?_, ?_, ?_⟩
  · intro st i a b hd hch
    simp only [check_linca_capture] at hch ⊢
    obtain ⟨h0, p, hp1, hp2, hp3, hp4, hp5, _⟩ :=
      lincaLoop_control_change _ _ _ _ a b (st.pieces.length + 1) st hd hch
    exact ⟨h0, p, hp1, hp2, hp3, hp4, hp5⟩
  · intro st i hd p hin hout htype
    simp only [check_linca_capture] at hout ⊢
    exact lincaLoop_clears_captured _ _ _ _ (st.pieces.length + 1) st hd p hin hout htype
  · intro st i old_row old_col a b hd hch
    rcases seltou_cases st i old_row old_col with h |
      ⟨k, hk, hcolor, hr0, hr8, hc0, hc8, hpieces, hsub⟩
    · rw [h] at hch
      exact absurd rfl hch
    · rcases hsub with ⟨hkty, hctrl, _, _⟩ | ⟨hkty, hctrl⟩
      · rw [hctrl] at hch
        exact absurd rfl hch
      · rw [hctrl] at hch ⊢
        have hab : a = (pieceAt st.pieces k).row ∧ b = (pieceAt st.pieces k).col := by
          by_contra hab
          rw [getCell_setCell_ne _ _ _ _ _ _ (by tauto)] at hch
          exact hch rfl
        refine ⟨?_, pieceAt st.pieces k, pieceAt_mem _ _ hk, ?_, hab.1.symm, hab.2.symm, hkty⟩
        · rw [hab.1, hab.2]
          exact getCell_setCell_self_zero _ _ _
        · rw [hpieces]
          exact not_mem_eraseIdx_self (distinctPos_nodup hd) hk
  · intro st i old_row old_col p hin hout htype
    rcases seltou_cases st i old_row old_col with h |
      ⟨k, hk, hcolor, hr0, hr8, hc0, hc8, hpieces, hsub⟩
    · rw [h] at hout
      exact absurd hin hout
    · rw [hpieces] at hout
      have hpk : pieceAt st.pieces k = p := by
        by_contra hne
        exact hout (mem_eraseIdx_of_ne hin hne)
      rcases hsub with ⟨hkty, _, _, _⟩ | ⟨hkty, hctrl⟩
      · rw [hpk] at hkty
        exact absurd hkty htype
      · rw [hctrl, hpk]
        exact getCell_setCell_self_zero _ _ _
  · intro st i old_row old_col p hin hout htype
    rcases seltou_cases st i old_row old_col with h |
      ⟨k, hk, hcolor, hr0, hr8, hc0, hc8, hpieces, hsub⟩
    · rw [h]
    · rw [hpieces] at hout
      have hpk : pieceAt st.pieces k = p := by
        by_contra hne
        exact hout (mem_eraseIdx_of_ne hin hne)
      rcases hsub with ⟨hkty, hctrl, _, _⟩ | ⟨hkty, hctrl⟩
      · exact hctrl
      · rw [hpk] at hkty
        exact absurd htype hkty

/-- Witness state: a Linca pawn capture at (4,5), whose cell is controlled by
Red before the move resolves. -/
def stC2w : GState :=
  { pieces := [⟨4, 4, 'B', 'P'⟩, ⟨4, 5, 'R', 'P'⟩, ⟨4, 6, 'B', 'P'⟩],
    cell_control := setCell grid0 4 5 2, game_over := false, selected_piece := -1,
    score_blue := 0, score_red := 0, messages := [] }

theorem cell_control_cleared_exactly_on_pawn_capture_witness :
    getCell (check_linca_capture stC2w 0).cell_control 4 5 = 0 ∧
    (check_seltou_capture stC2 0 3 4).cell_control = stC2.cell_control := by
  constructor
  · have h := cell_control_cleared_exactly_on_pawn_capture.2.1 stC2w 0 (by decide)
      ⟨4, 5, 'R', 'P'⟩ (by decide) (by decide) (by decide)
    simpa using h
  · exact cell_control_cleared_exactly_on_pawn_capture.2.2.2.2 stC2 0 3 4
      ⟨5, 4, 'R', 'K'⟩ (by decide) (by decide) (by decide)

/-- State refuting C3 as written: Blue at (4,4) is flanked on the left by the
Red KING at (4,3) backed by Blue at (4,2) — scanned first — and on the right
by a Red pawn at (4,5) backed by Blue at (4,6). -/
def stC3c : GState :=
  { pieces := [⟨4, 4, 'B', 'P'⟩, ⟨4, 3, 'R', 'K'⟩, ⟨4, 2, 'B', 'P'⟩,
               ⟨4, 5, 'R', 'P'⟩, ⟨4, 6, 'B', 'P'⟩],
    cell_control := grid0, game_over := false, selected_piece := -1,
    score_blue := 0, score_red := 0, messages := [] }

/-- C3 counterexample: both sandwich configurations are present when the scan
starts, yet only the king is removed — the king capture returns immediately,
so the flanked Red pawn at (4,5) survives the call, contradicting the claim
that every flanked enemy (and both of two simultaneous sandwiches) is
removed. -/
theorem linca_king_sandwich_stops_scan_cex :
    (⟨4, 5, 'R', 'P'⟩ : Piece) ∈ stC3c.pieces ∧
    (⟨4, 6, 'B', 'P'⟩ : Piece) ∈ stC3c.pieces ∧
    (check_linca_capture stC3c 0).pieces =
      [⟨4, 4, 'B', 'P'⟩, ⟨4, 2, 'B', 'P'⟩, ⟨4, 5, 'R', 'P'⟩, ⟨4, 6, 'B', 'P'⟩] ∧
    (⟨4, 5, 'R', 'P'⟩ : Piece) ∈ (check_linca_capture stC3c 0).pieces := by
  decide

/-- C3 (amended). Linca sandwich resolution, on positions whose enemy pieces
are all pawns (a sandwiched enemy KING ends the scan at once, leaving other
sandwiches unresolved — see the counterexample): every enemy pawn adjacent to
the moved piece with an ally right beyond it is removed and its cell's
control cleared (for all directions simultaneously, so a move creating two
independent sandwiches removes both pieces in the one call), while a run of
two consecutive enemy pieces in one direction is never captured. -/
theorem linca_sandwich_resolution (st : GState) (i : Nat) (r c : Int) (ally enemy : Char)
    (hr : r = (pieceAt st.pieces i).row) (hc : c = (pieceAt st.pieces i).col)
    (hally : ally = (pieceAt st.pieces i).color)
    (henemy : enemy = if (pieceAt st.pieces i).color = 'B' then 'R' else 'B')
    (hd : distinctPos st.pieces)
    (hkings : ∀ p ∈ st.pieces, p.color = enemy → p.type ≠ 'K') :
    (∀ d : Nat, d < 4 →
      ∀ p1 p2 : Piece, p1 ∈ st.pieces → p1.row = r + dirDr d → p1.col = c + dirDc d →
        p1.color = enemy →
        p2 ∈ st.pieces → p2.row = r + 2 * dirDr d → p2.col = c + 2 * dirDc d →
        p2.color = ally →
        ¬(r + 2 * dirDr d < 0 ∨ r + 2 * dirDr d > 8 ∨
          c + 2 * dirDc d < 0 ∨ c + 2 * dirDc d > 8) →
        find_piece_at (check_linca_capture st i).pieces (r + dirDr d) (c + dirDc d) = -1 ∧
        getCell (check_linca_capture st i).cell_control (r + dirDr d) (c + dirDc d) = 0) ∧
    (∀ d : Nat, d < 4 →
      ∀ p1 p2 : Piece, p1 ∈ st.pieces → p1.row = r + dirDr d → p1.col = c + dirDc d →
        p1.color = enemy →
        p2 ∈ st.pieces → p2.row = r + 2 * dirDr d → p2.col = c + 2 * dirDc d →
        p2.color = enemy →
        p1 ∈ (check_linca_capture st i).pieces ∧ p2 ∈ (check_linca_capture st i).pieces) := by
  subst hr
  subst hc
  subst hally
  subst henemy
  constructor
  · intro d hd4 p1 p2 hp1 h1r h1c h1col hp2 h2r h2c h2col hb
    simp only [check_linca_capture]
    obtain ⟨hempty, hctrl⟩ := lincaLoop_sandwich _ _ _ _ d hd4 (st.pieces.length + 1) st hd
      hkings (Nat.lt_succ_self _) p1 p2 hp1 h1r h1c h1col hp2 h2r h2c h2col hb
    exact ⟨find_piece_at_empty hempty, hctrl⟩
  · intro d hd4 p1 p2 hp1 h1r h1c h1col hp2 h2r h2c h2col
    simp only [check_linca_capture]
    exact lincaLoop_preserves_run _ _ _ _ (ally_ne_enemy _) d hd4 (st.pieces.length + 1) st hd
      p1 p2 hp1 h1r h1c h1col hp2 h2r h2c h2col

/-- Double-sandwich witness state: Blue at (2,4) flanks Red pawns at (2,5)
and (2,3), each backed by a Blue pawn; cells (2,5) and (2,3) are controlled
by Red before resolution. -/
def stC3w : GState :=
  { pieces := [⟨2, 4, 'B', 'P'⟩, ⟨2, 5, 'R', 'P'⟩, ⟨2, 6, 'B', 'P'⟩,
               ⟨2, 3, 'R', 'P'⟩, ⟨2, 2, 'B', 'P'⟩],
    cell_control := setCell (setCell grid0 2 5 2) 2 3 2, game_over := false,
    selected_piece := -1, score_blue := 0, score_red := 0, messages := [] }

/-- Run-of-two witness state: two consecutive Red pawns to the right of the
moved Blue piece, with a Blue piece further on. -/
def stC3r : GState :=
  { pieces := [⟨2, 4, 'B', 'P'⟩, ⟨2, 5, 'R', 'P'⟩, ⟨2, 6, 'R', 'P'⟩],
    cell_control := grid0, game_over := false, selected_piece := -1,
    score_blue := 0, score_red := 0, messages := [] }

theorem linca_sandwich_resolution_witness :
    find_piece_at (check_linca_capture stC3w 0).pieces 2 5 = -1 ∧
    find_piece_at (check_linca_capture stC3w 0).pieces 2 3 = -1 ∧
    getCell (check_linca_capture stC3w 0).cell_control 2 5 = 0 ∧
    getCell (check_linca_capture stC3w 0).cell_control 2 3 = 0 ∧
    (⟨2, 5, 'R', 'P'⟩ : Piece) ∈ (check_linca_capture stC3r 0).pieces ∧
    (⟨2, 6, 'R', 'P'⟩ : Piece) ∈ (check_linca_capture stC3r 0).pieces := by
  have h3 := (linca_sandwich_resolution stC3w 0 2 4 'B' 'R' (by decide) (by decide) (by decide)
    (by decide) (by decide) (by decide)).1 3 (by decide) ⟨2, 5, 'R', 'P'⟩ ⟨2, 6, 'B', 'P'⟩
    (by decide) (by decide) (by decide) (by decide) (by decide) (by decide) (by decide)
    (by decide) (by decide)
  have h2 := (linca_sandwich_resolution stC3w 0 2 4 'B' 'R' (by decide) (by decide) (by decide)
    (by decide) (by decide) (by decide)).1 2 (by decide) ⟨2, 3, 'R', 'P'⟩ ⟨2, 2, 'B', 'P'⟩
    (by decide) (by decide) (by decide) (by decide) (by decide) (by decide) (by decide)
    (by decide) (by decide)
  have hrun := (linca_sandwich_resolution stC3r 0 2 4 'B' 'R' (by decide) (by decide) (by decide)
    (by decide) (by decide) (by decide)).2 3 (by decide) ⟨2, 5, 'R', 'P'⟩ ⟨2, 6, 'R', 'P'⟩
    (by decide) (by decide) (by decide) (by decide) (by decide) (by decide) (by decide)
    (by decide)
  refine ⟨?_, ?_, ?_, ?_, ?_, ?_⟩
  · simpa using h3.1
  · simpa using h2.1
  · simpa using h3.2
  · simpa using h2.2
  · exact hrun.1
  · exact hrun.2

theorem enemy_bne_eq (chx : Char) :
    ((if chx = 'B' then 'R' else 'B') != 'B') = (chx == 'B') := by
  by_cases h : chx = 'B' <;> simp [h]

/-- C4. A king capture terminates the match: whenever `check_linca_capture`
or `check_seltou_capture` removes a king from the board, the game-over flag
is set and exactly one victory message is appended, declaring the capturing
color (the color opposite the captured king) the winner, regardless of
remaining material; and in the Linca scan the king-capture branch returns at
once, so no further direction is scanned after it (third conjunct). -/
theorem king_capture_ends_match :
    (∀ (st : GState) (i : Nat),
      kingTally (check_linca_capture st i).pieces < kingTally st.pieces →
      (check_linca_capture st i).game_over = true ∧
      (check_linca_capture st i).messages = st.messages ++
        [(((pieceAt st.pieces i).color == 'B'),
          if (if (pieceAt st.pieces i).color = 'B' then 'R' else 'B') = 'B'
          then "Le roi bleu a été capturé." else "Le roi rouge a été capturé.")]) ∧
    (∀ (st : GState) (i : Nat) (old_row old_col : Int),
      kingTally (check_seltou_capture st i old_row old_col).pieces < kingTally st.pieces →
      (check_seltou_capture st i old_row old_col).game_over = true ∧
      (check_seltou_capture st i old_row old_col).messages = st.messages ++
        [(((pieceAt st.pieces i).color == 'B'),
          if (if (pieceAt st.pieces i).color = 'B' then 'R' else 'B') = 'B'
          then "Le roi bleu a été capturé." else "Le roi rouge a été capturé.")]) ∧
    (∀ (st : GState) (r c : Int) (ally enemy : Char) (n idx : Nat) (r1 c1 : Int),
      lincaFirst st r c ally enemy = some (idx, r1, c1) →
      (pieceAt st.pieces idx).type = 'K' →
      lincaLoop r c ally enemy (n + 1) st = kingCaptureState st idx) := by
  refine ⟨?_, ?_, ?_⟩
  · intro st i h
    simp only [check_linca_capture] at h ⊢
    obtain ⟨h1, h2⟩ := lincaLoop_king _ _ _ _ (st.pieces.length + 1) st h
    rw [enemy_bne_eq] at h2
    exact ⟨h1, h2⟩
  · intro st i old_row old_col h
    rcases seltou_cases st i old_row old_col with heq |
      ⟨k, hk, hcolor, _, _, _, _, hpieces, hsub⟩
    · rw [heq] at h
      exact absurd h (lt_irrefl _)
    · rcases hsub with ⟨hkty, _, hover, hmsg⟩ | ⟨hkty, _⟩
      · refine ⟨hover, ?_⟩
        rw [hmsg, hcolor, enemy_bne_eq]
      · rw [hpieces, kingTally_eraseIdx_pawn hk hkty] at h
        exact absurd h (lt_irrefl _)
  · intro st r c ally enemy n idx r1 c1 hf hk
    exact lincaLoop_succ_king hf hk

/-- Witness state for the Linca king capture: Blue at (4,4), Red KING at
(4,5), Blue at (4,6). -/
def stC4a : GState :=
  { pieces := [⟨4, 4, 'B', 'P'⟩, ⟨4, 5, 'R', 'K'⟩, ⟨4, 6, 'B', 'P'⟩],
    cell_control := grid0, game_over := false, selected_piece := -1,
    score_blue := 0, score_red := 0, messages := [] }

/-- Witness state for the Seltou king capture: Blue moved from (3,4) to
(4,4), unprotected Red KING at (5,4). -/
def stC4b : GState :=
  { pieces := [⟨4, 4, 'B', 'P'⟩, ⟨5, 4, 'R', 'K'⟩],
    cell_control := grid0, game_over := false, selected_piece := -1,
    score_blue := 0, score_red := 0, messages := [] }

theorem king_capture_ends_match_witness :
    ((check_linca_capture stC4a 0).game_over = true ∧
      (check_linca_capture stC4a 0).messages
        = [(true, "Le roi rouge a été capturé.")]) ∧
    ((check_seltou_capture stC4b 0 3 4).game_over = true ∧
      (check_seltou_capture stC4b 0 3 4).messages
        = [(true, "Le roi rouge a été capturé.")]) ∧
    lincaLoop 4 4 'B' 'R' 4 stC4a = kingCaptureState stC4a 1 := by
  refine ⟨?_, ?_, ?_⟩
  · have h := king_capture_ends_match.1 stC4a 0 (by decide)
    constructor
    · exact h.1
    · have := h.2
      simpa using this
  · have h := king_capture_ends_match.2.1 stC4b 0 3 4 (by decide)
    constructor
    · exact h.1
    · have := h.2
      simpa using this
  · exact king_capture_ends_match.2.2 stC4a 4 4 'B' 'R' 3 1 4 5 (by decide) (by decide)

/-- C5 (amended). The auto-defeat rule: nothing happens when the match is
already over; a color reduced to exactly one pawn and one king loses at once
with its opponent declared winner — except that when BOTH colors qualify
simultaneously, only Blue loses (the Blue check runs first and its setting of
the game-over flag disables the Red check; see the counterexample and C10). -/
theorem auto_defeat_rule (st : GState) :
    (st.game_over = true → check_auto_defeat st = st) ∧
    (st.game_over = false → tally_blue_pawns st.pieces = 1 → tally_blue_kings st.pieces = 1 →
      check_auto_defeat st = { st with
        game_over := true,
        messages := st.messages ++ [(false, "Les bleus n\x27ont plus qu\x27un pion et un roi.")] }) ∧
    (st.game_over = false → ¬(tally_blue_pawns st.pieces = 1 ∧ tally_blue_kings st.pieces = 1) →
      tally_red_pawns st.pieces = 1 → tally_red_kings st.pieces = 1 →
      check_auto_defeat st = { st with
        game_over := true,
        messages := st.messages ++ [(true, "Les rouges n\x27ont plus qu\x27un pion et un roi.")] }) := by
  refine ⟨?_, ?_, ?_⟩
  · intro h
    simp only [check_auto_defeat]
    have hc1 : ¬(¬st.game_over = true ∧ tally_blue_pawns st.pieces = 1 ∧
        tally_blue_kings st.pieces = 1) := by simp [h]
    have hc2 : ¬(¬st.game_over = true ∧ tally_red_pawns st.pieces = 1 ∧
        tally_red_kings st.pieces = 1) := by simp [h]
    rw [if_neg hc1, if_neg hc2]
  · intro hgo hbp hbk
    simp only [check_auto_defeat]
    have hc1 : ¬st.game_over = true ∧ tally_blue_pawns st.pieces = 1 ∧
        tally_blue_kings st.pieces = 1 := ⟨by simp [hgo], hbp, hbk⟩
    rw [if_pos hc1, if_neg (fun hcon => hcon.1 rfl)]
  · intro hgo hnb hrp hrk
    simp only [check_auto_defeat]
    have hc1 : ¬(¬st.game_over = true ∧ tally_blue_pawns st.pieces = 1 ∧
        tally_blue_kings st.pieces = 1) := fun hcon => hnb ⟨hcon.2.1, hcon.2.2⟩
    have hc2 : ¬st.game_over = true ∧ tally_red_pawns st.pieces = 1 ∧
        tally_red_kings st.pieces = 1 := ⟨by simp [hgo], hrp, hrk⟩
    rw [if_neg hc1, if_pos hc2]

/-- Both colors reduced to exactly one king and one pawn at the same time. -/
def stC5both : GState :=
  { pieces := [⟨0, 0, 'B', 'K'⟩, ⟨0, 1, 'B', 'P'⟩, ⟨8, 8, 'R', 'K'⟩, ⟨8, 7, 'R', 'P'⟩],
    cell_control := grid0, game_over := false, selected_piece := -1,
    score_blue := 0, score_red := 0, messages := [] }

/-- C5 counterexample: Red has exactly one king and one pawn and the match is
not over, yet after `check_auto_defeat` the sole victory message declares the
REDS the winners (`blue_won = false`): Red does not lose and Red's opponent
is not declared winner, because Blue also qualified and was processed first —
the claim's "that color loses and its opponent is declared winner" fails for
Red in this state. -/
theorem auto_defeat_both_sides_cex :
    stC5both.game_over = false ∧
    tally_red_pawns stC5both.pieces = 1 ∧ tally_red_kings stC5both.pieces = 1 ∧
    (check_auto_defeat stC5both).messages
      = [(false, "Les bleus n\x27ont plus qu\x27un pion et un roi.")] ∧
    (check_auto_defeat stC5both).game_over = true := by
  decide

/-- Match already over: the state must be left unchanged. -/
def stC5go : GState :=
  { pieces := [⟨0, 0, 'B', 'K'⟩, ⟨0, 1, 'B', 'P'⟩, ⟨8, 8, 'R', 'K'⟩, ⟨8, 7, 'R', 'P'⟩],
    cell_control := grid0, game_over := true, selected_piece := -1,
    score_blue := 0, score_red := 0, messages := [] }

/-- Only Blue is down to one king and one pawn. -/
def stC5b : GState :=
  { pieces := [⟨0, 0, 'B', 'K'⟩, ⟨0, 1, 'B', 'P'⟩, ⟨8, 8, 'R', 'K'⟩, ⟨8, 7, 'R', 'P'⟩,
               ⟨8, 6, 'R', 'P'⟩],
    cell_control := grid0, game_over := false, selected_piece := -1,
    score_blue := 0, score_red := 0, messages := [] }

/-- Only Red is down to one king and one pawn. -/
def stC5r : GState :=
  { pieces := [⟨0, 0, 'B', 'K'⟩, ⟨0, 1, 'B', 'P'⟩, ⟨0, 2, 'B', 'P'⟩, ⟨8, 8, 'R', 'K'⟩,
               ⟨8, 7, 'R', 'P'⟩],
    cell_control := grid0, game_over := false, selected_piece := -1,
    score_blue := 0, score_red := 0, messages := [] }

theorem auto_defeat_rule_witness :
    check_auto_defeat stC5go = stC5go ∧
    check_auto_defeat stC5b = { stC5b with
        game_over := true,
        messages := stC5b.messages ++ [(false, "Les bleus n\x27ont plus qu\x27un pion et un roi.")] } ∧
    check_auto_defeat stC5r = { stC5r with
        game_over := true,
        messages := stC5r.messages ++ [(true, "Les rouges n\x27ont plus qu\x27un pion et un roi.")] } :=
  ⟨(auto_defeat_rule stC5go).1 (by decide),
   (auto_defeat_rule stC5b).2.1 (by decide) (by decide) (by decide),
   (auto_defeat_rule stC5r).2.2 (by decide) (by decide) (by decide) (by decide)⟩

/-- C10. Implicit tie-break of `check_auto_defeat`: when the game is not over
and both colors are down to exactly one king and one pawn, Blue is declared
the loser (the Blue check runs first; the game-over flag it sets makes the
Red check's guard fail), so exactly one victory — Red's — is declared; and no
call to `check_auto_defeat` ever emits more than one victory message. -/
theorem auto_defeat_tie_break_blue_loses :
    (∀ st : GState, st.game_over = false →
      tally_blue_pawns st.pieces = 1 → tally_blue_kings st.pieces = 1 →
      tally_red_pawns st.pieces = 1 → tally_red_kings st.pieces = 1 →
      check_auto_defeat st = { st with
        game_over := true,
        messages := st.messages ++ [(false, "Les bleus n\x27ont plus qu\x27un pion et un roi.")] }) ∧
    (∀ st : GState, (check_auto_defeat st).messages.length ≤ st.messages.length + 1) := by
  constructor
  · intro st hgo hbp hbk _ _
    simp only [check_auto_defeat]
    have hc1 : ¬st.game_over = true ∧ tally_blue_pawns st.pieces = 1 ∧
        tally_blue_kings st.pieces = 1 := ⟨by simp [hgo], hbp, hbk⟩
    rw [if_pos hc1, if_neg (fun hcon => hcon.1 rfl)]
  · intro st
    simp only [check_auto_defeat]
    split_ifs with h1 h2 h3
    · exact absurd rfl h2.1
    · simp
    · simp
    · simp

/-- Fresh copy of the both-qualify state for the C10 witness. -/
def stC10both : GState :=
  { pieces := [⟨0, 0, 'B', 'K'⟩, ⟨0, 1, 'B', 'P'⟩, ⟨8, 8, 'R', 'K'⟩, ⟨8, 7, 'R', 'P'⟩],
    cell_control := grid0, game_over := false, selected_piece := -1,
    score_blue := 0, score_red := 0, messages := [] }

theorem auto_defeat_tie_break_blue_loses_witness :
    check_auto_defeat stC10both = { stC10both with
        game_over := true,
        messages := stC10both.messages ++
        [(false, "Les bleus n\x27ont plus qu\x27un pion et un roi.")] } :=
  auto_defeat_tie_break_blue_loses.1 stC10both (by decide) (by decide) (by decide)
    (by decide) (by decide)

/-- C6. Invalid peer move is fatal. A message whose length is not 4 is
dropped without decoding or state change. Otherwise the token is decoded and
three checks run in order — origin cell occupied, mover's color matches the
local current turn, legality check — and any failure triggers the fatal
teardown: game-over set, victory message for the local player's color
appended, pieces and control untouched, socket invalidated (second conjunct
describes the teardown exactly). Only a token passing all three checks is
applied as a move, via `move_piece`. The legality checker `can_move` and the
move application `move_piece` live in `game.c` (not among the sources), so
the callback is stated for every choice of them. -/
theorem invalid_peer_move_fatal
    (can_move : NetSt → Nat → Int → Int → Bool)
    (move_piece : NetSt → Nat → Int → Int → NetSt)
    (st : NetSt) (msg : List Char) :
    (msg.length ≠ 4 → gui_move_piece_callback can_move move_piece st msg = st) ∧
    (∀ st' : NetSt,
      (invalidMoveTeardown st').g_socket = -1 ∧
      (invalidMoveTeardown st').g.game_over = true ∧
      (invalidMoveTeardown st').g.messages = st'.g.messages ++
        [(st'.my_color == 'B', "L\x27adversaire a joué un coup invalide.")] ∧
      (invalidMoveTeardown st').g.pieces = st'.g.pieces ∧
      (invalidMoveTeardown st').g.cell_control = st'.g.cell_control ∧
      (invalidMoveTeardown st').current_turn = st'.current_turn) ∧
    (msg.length = 4 →
      find_piece_at st.g.pieces (decodeRow (msg.getD 1 ' ')) (decodeCol (msg.getD 0 ' ')) < 0 →
      gui_move_piece_callback can_move move_piece st msg = invalidMoveTeardown st) ∧
    (msg.length = 4 →
      0 ≤ find_piece_at st.g.pieces (decodeRow (msg.getD 1 ' ')) (decodeCol (msg.getD 0 ' ')) →
      (pieceAt st.g.pieces (find_piece_at st.g.pieces (decodeRow (msg.getD 1 ' '))
        (decodeCol (msg.getD 0 ' '))).toNat).color ≠ st.current_turn →
      gui_move_piece_callback can_move move_piece st msg = invalidMoveTeardown st) ∧
    (msg.length = 4 →
      0 ≤ find_piece_at st.g.pieces (decodeRow (msg.getD 1 ' ')) (decodeCol (msg.getD 0 ' ')) →
      (pieceAt st.g.pieces (find_piece_at st.g.pieces (decodeRow (msg.getD 1 ' '))
        (decodeCol (msg.getD 0 ' '))).toNat).color = st.current_turn →
      can_move st (find_piece_at st.g.pieces (decodeRow (msg.getD 1 ' '))
        (decodeCol (msg.getD 0 ' '))).toNat (decodeRow (msg.getD 3 ' '))
        (decodeCol (msg.getD 2 ' ')) = false →
      gui_move_piece_callback can_move move_piece st msg = invalidMoveTeardown st) ∧
    (msg.length = 4 →
      0 ≤ find_piece_at st.g.pieces (decodeRow (msg.getD 1 ' ')) (decodeCol (msg.getD 0 ' ')) →
      (pieceAt st.g.pieces (find_piece_at st.g.pieces (decodeRow (msg.getD 1 ' '))
        (decodeCol (msg.getD 0 ' '))).toNat).color = st.current_turn →
      can_move st (find_piece_at st.g.pieces (decodeRow (msg.getD 1 ' '))
        (decodeCol (msg.getD 0 ' '))).toNat (decodeRow (msg.getD 3 ' '))
        (decodeCol (msg.getD 2 ' ')) = true →
      gui_move_piece_callback can_move move_piece st msg =
        move_piece st (find_piece_at st.g.pieces (decodeRow (msg.getD 1 ' '))
          (decodeCol (msg.getD 0 ' '))).toNat (decodeRow (msg.getD 3 ' '))
          (decodeCol (msg.getD 2 ' '))) := by
  refine ⟨?_, ?_, ?_, ?_, ?_, ?_⟩
  · intro h
    simp only [gui_move_piece_callback]
    rw [if_pos h]
  · intro st'
    refine ⟨?_, rfl, rfl, rfl, rfl, rfl⟩
    simp only [invalidMoveTeardown]
    by_cases h : st'.g_socket ≠ -1
    · simp [h]
    · push_neg at h
      simp [h]
  · intro hlen hfind
    simp only [gui_move_piece_callback]
    rw [if_neg (by omega : ¬msg.length ≠ 4), if_pos hfind]
  · intro hlen hfind hcol
    simp only [gui_move_piece_callback]
    rw [if_neg (by omega : ¬msg.length ≠ 4), if_neg (by omega : ¬(find_piece_at st.g.pieces
      (decodeRow (msg.getD 1 ' ')) (decodeCol (msg.getD 0 ' ')) < 0)), if_pos hcol]
  · intro hlen hfind hcol hcm
    simp only [gui_move_piece_callback]
    rw [if_neg (by omega : ¬msg.length ≠ 4), if_neg (by omega : ¬(find_piece_at st.g.pieces
      (decodeRow (msg.getD 1 ' ')) (decodeCol (msg.getD 0 ' ')) < 0)), if_neg (by
        intro hcon
        exact hcon hcol), if_pos (show ¬_ = true by rw [hcm]; exact Bool.false_ne_true)]
  · intro hlen hfind hcol hcm
    simp only [gui_move_piece_callback]
    rw [if_neg (by omega : ¬msg.length ≠ 4), if_neg (by omega : ¬(find_piece_at st.g.pieces
      (decodeRow (msg.getD 1 ' ')) (decodeCol (msg.getD 0 ' ')) < 0)), if_neg (by
        intro hcon
        exact hcon hcol), if_neg (by rw [hcm]; exact not_not_intro rfl)]

/-- Concrete network state: Blue to move locally, one Blue pawn on cell A1
(row 8, column 0), live socket 7. -/
def netC6 : NetSt :=
  { g := { pieces := [⟨8, 0, 'B', 'P'⟩], cell_control := grid0, game_over := false,
           selected_piece := -1, score_blue := 0, score_red := 0, messages := [] },
    current_turn := 'B', my_color := 'B', g_socket := 7 }

theorem invalid_peer_move_fatal_witness :
    gui_move_piece_callback (fun _ _ _ _ => true) (fun s _ _ _ => s) netC6 ['A', '1', 'B']
      = netC6 ∧
    gui_move_piece_callback (fun _ _ _ _ => true) (fun s _ _ _ => s) netC6 ['C', '5', 'A', '1']
      = invalidMoveTeardown netC6 ∧
    gui_move_piece_callback (fun _ _ _ _ => false) (fun s _ _ _ => s) netC6 ['A', '1', 'B', '2']
      = invalidMoveTeardown netC6 ∧
    gui_move_piece_callback (fun _ _ _ _ => true) (fun s _ _ _ => s) netC6 ['A', '1', 'B', '2']
      = netC6 :=
  ⟨(invalid_peer_move_fatal (fun _ _ _ _ => true) (fun s _ _ _ => s) netC6
      ['A', '1', 'B']).1 (by decide),
   (invalid_peer_move_fatal (fun _ _ _ _ => true) (fun s _ _ _ => s) netC6
      ['C', '5', 'A', '1']).2.2.1 (by decide) (by decide),
   (invalid_peer_move_fatal (fun _ _ _ _ => false) (fun s _ _ _ => s) netC6
      ['A', '1', 'B', '2']).2.2.2.2.1 (by decide) (by decide) (by decide) (by decide),
   (invalid_peer_move_fatal (fun _ _ _ _ => true) (fun s _ _ _ => s) netC6
      ['A', '1', 'B', '2']).2.2.2.2.2 (by decide) (by decide) (by decide) (by decide)⟩

theorem list_sum_ge_length (l : List Int) (h : ∀ y ∈ l, 1 ≤ y) : (l.length : Int) ≤ l.sum := by
  induction l with
  | nil => simp
  | cons x t ih =>
    have hx := h x (List.mem_cons_self x t)
    have ht := ih (fun y hy => h y (List.mem_cons_of_mem x hy))
    simp only [List.sum_cons, List.length_cons]
    push_cast
    omega

theorem sendLoop_complete (rs : List Int) : ∀ total : Int, (∀ x ∈ rs, 1 ≤ x) →
    total + rs.sum = 4 → sendLoop rs total = (4, rs.length) := by
  induction rs with
  | nil =>
    intro total _ hs
    have htot : total = 4 := by simpa using hs
    subst htot
    simp [sendLoop]
  | cons x rest ih =>
    intro total h hs
    have hx : 1 ≤ x := h x (List.mem_cons_self x rest)
    have hrest : ∀ y ∈ rest, 1 ≤ y := fun y hy => h y (List.mem_cons_of_mem x hy)
    have hlen := list_sum_ge_length rest hrest
    have hlen0 : (0 : Int) ≤ (rest.length : Int) := by positivity
    have htot : total < 4 := by
      simp only [List.sum_cons] at hs
      omega
    simp only [sendLoop]
    rw [if_pos htot, if_neg (by omega : ¬x ≤ 0),
      ih (total + x) hrest (by simp only [List.sum_cons] at hs; omega)]
    simp

theorem sendLoop_fail (pre : List Int) : ∀ (x : Int) (rest : List Int) (total : Int),
    (∀ y ∈ pre, 1 ≤ y) → total + pre.sum < 4 → x ≤ 0 →
    (sendLoop (pre ++ x :: rest) total).1 = -1 := by
  induction pre with
  | nil =>
    intro x rest total _ hs hx
    simp only [List.nil_append, sendLoop]
    rw [if_pos (by simpa using hs), if_pos hx]
  | cons y pre' ih =>
    intro x rest total h hs hx
    have hy : 1 ≤ y := h y (List.mem_cons_self y pre')
    have hpre' : ∀ z ∈ pre', 1 ≤ z := fun z hz => h z (List.mem_cons_of_mem y hz)
    have hlen := list_sum_ge_length pre' hpre'
    have hlen0 : (0 : Int) ≤ (pre'.length : Int) := by positivity
    simp only [List.cons_append, sendLoop]
    rw [if_pos (show total < 4 by simp only [List.sum_cons] at hs; omega),
      if_neg (by omega : ¬y ≤ 0)]
    simpa using ih x rest (total + y) hpre' (by simp only [List.sum_cons] at hs; omega) hx

/-- C8. Transmission discipline of `TCP_Send_Message`: a `NULL` move or a
move whose length differs from 4 yields -1 with zero `send` calls (no
transmission is attempted); with a 4-character token and a well-behaved
socket (each `send` returns at least 1 byte until the 4 bytes are flushed)
the loop performs exactly one call per chunk and returns 4; a failing `send`
(return value ≤ 0) reached before completion makes the result -1. The second
component of the modelled result counts the `send` calls made. -/
theorem tcp_send_message_discipline :
    (∀ sends : List Int, TCP_Send_Message none sends = (-1, 0)) ∧
    (∀ (m : List Char) (sends : List Int), m.length ≠ 4 →
      TCP_Send_Message (some m) sends = (-1, 0)) ∧
    (∀ (m : List Char) (sends : List Int), m.length = 4 → (∀ x ∈ sends, 1 ≤ x) →
      sends.sum = 4 → TCP_Send_Message (some m) sends = (4, sends.length)) ∧
    (∀ (m : List Char) (pre rest : List Int) (x : Int), m.length = 4 →
      (∀ y ∈ pre, 1 ≤ y) → pre.sum < 4 → x ≤ 0 →
      (TCP_Send_Message (some m) (pre ++ x :: rest)).1 = -1) := by
  refine ⟨?_, ?_, ?_, ?_⟩
  · intro sends
    rfl
  · intro m sends h
    simp only [TCP_Send_Message]
    rw [if_pos h]
  · intro m sends hm hx hs
    simp only [TCP_Send_Message]
    rw [if_neg (by omega : ¬m.length ≠ 4)]
    exact sendLoop_complete sends 0 hx (by omega)
  · intro m pre rest x hm hpre hs hx
    simp only [TCP_Send_Message]
    rw [if_neg (by omega : ¬m.length ≠ 4)]
    exact sendLoop_fail pre x rest 0 hpre (by omega) hx

theorem tcp_send_message_discipline_witness :
    TCP_Send_Message (some ['A', 'B', 'C']) [4] = (-1, 0) ∧
    TCP_Send_Message (some ['A', '1', 'A', '2']) [2, 1, 1] = (4, 3) ∧
    (TCP_Send_Message (some ['A', '1', 'A', '2']) ([2] ++ (-1) :: [5])).1 = -1 :=
  ⟨tcp_send_message_discipline.2.1 ['A', 'B', 'C'] [4] (by decide),
   by simpa using tcp_send_message_discipline.2.2.1 ['A', '1', 'A', '2'] [2, 1, 1]
        (by decide) (by decide) (by decide),
   tcp_send_message_discipline.2.2.2 ['A', '1', 'A', '2'] [2] [5] (-1)
     (by decide) (by decide) (by decide) (by decide)⟩
